import Mathlib

/-!
Verification of the FORMAT-directed formatted I/O core of the f18 Fortran
runtime: the `FormatControl` cursor over a FORMAT string, the internal
formatted output statement with its `Emit` sink, and the integer output
converter `OutputInteger64`.

The definitions below are a shallow embedding of the C++ sources
(`src/runtime/tools.h`, which carries `format.cpp` and `io-stmt.cpp`, and
`src/runtime/io-stmt.h`, which carries `io.cpp`).  C++ `int` values are
modelled as `Int`, `std::size_t` values as `Nat`, `std::uint64_t` arithmetic
as `Nat` with explicit reductions modulo `2 ^ 64`, and calls to
`Crash(...)` (which abort the host program) as `Except.error` with the
diagnostic text (format arguments are not interpolated).  Loops over the
FORMAT string that the source bounds by cursor progress are written with an
explicit fuel argument computed from the remaining length, so that every
definition evaluates by kernel reduction; the one genuinely unbounded loop,
`CueUpNextDataEdit`'s `while (true)`, takes its fuel as a parameter and
yields `none` when the fuel runs out.

Declarations whose C++ source is not part of the repository snapshot
(`format.h`, `io-error.h`) are modelled from the specification and say so in
their doc comments.
-/

set_option autoImplicit false

namespace F18

/-- Rounding modes of `common::RoundingMode` as used by the `R*` control
edit descriptors. -/
inductive RoundingMode where
  | tiesToEven
  | toZero
  | up
  | down
  | tiesAwayFromZero
  deriving DecidableEq, Repr

/-- Modelled from the spec: `MutableModes` (declared in the missing
`format.h`) is a bundle of a rounding mode and the editingFlags bits
`blankZero`, `decimalComma` and `signPlus`, defaulting to TiesToEven with
all flags clear. -/
structure MutableModes where
  roundingMode : RoundingMode
  blankZero : Bool
  decimalComma : Bool
  signPlus : Bool
  deriving DecidableEq, Repr

/-- The per-statement initial modes: TiesToEven, all flags cleared. -/
def defaultModes : MutableModes :=
  { roundingMode := RoundingMode.tiesToEven, blankZero := false,
    decimalComma := false, signPlus := false }

/-- `DataEdit`: one data edit descriptor produced by `FormatControl::GetNext`
(the C++ field `repeat` is spelled `repeatCount`, `repeat` being a Lean
keyword). -/
structure DataEdit where
  descriptor : Char
  variation : Char
  width : Int
  digits : Option Int
  expoDigits : Option Int
  repeatCount : Int
  modes : MutableModes
  deriving DecidableEq, Repr

/-- One iteration-stack frame (`FormatControl::Iteration`). -/
structure Iteration where
  start : Int
  remaining : Int
  deriving DecidableEq, Repr

/-- The `Iteration::unlimited` sentinel value of `remaining`. -/
def unlimited : Int := -1

/-- The combined state of one `InternalFormattedIoStatementState<false>`
with its embedded `FormatControl<char>`: the FORMAT cursor (`offset_`,
the iteration stack with the innermost frame at the head of the list,
`maxHeight_`, `scale_`), the statement's `MutableModes`, and the internal
output buffer (`internal_` contents, cursor `at_`, recorded end-of-record
condition). -/
structure IoState where
  format : List Char
  offset : Int
  stack : List Iteration
  maxHeight : Int
  scale : Nat
  modes : MutableModes
  internal : List Char
  at_ : Nat
  eor : Bool
  deriving DecidableEq, Repr

/-- `formatLength_` (the C++ member is the `int` cast of the `std::size_t`
constructor argument, the length of the borrowed format array). -/
def IoState.formatLength (s : IoState) : Int := s.format.length

/-- `height_`, the current depth of the iteration stack. -/
def IoState.height (s : IoState) : Int := s.stack.length

/-- The projection of the state the FORMAT walk runs on: the format, the
cursor, the iteration stack and the height bound (the buffer fields and
modes are irrelevant to the walk invariant). -/
def walkOf (s : IoState) : List Char × Int × List Iteration × Int :=
  (s.format, s.offset, s.stack, s.maxHeight)

/-- The NUL character the C++ code uses as "no character". -/
def nul : Char := Char.ofNat 0

/-- The single-quote character (written by code point to keep the source
free of quote literals). -/
def quoteS : Char := Char.ofNat 39

/-- The double-quote character. -/
def quoteD : Char := Char.ofNat 34

/-- `ch >= '0' && ch <= '9'`. -/
def isDigitChar (ch : Char) : Prop := '0' ≤ ch ∧ ch ≤ '9'

instance (ch : Char) : Decidable (isDigitChar ch) := by
  unfold isDigitChar; infer_instance

/-- Modelled from the spec: `FormatControl::Capitalize` of the missing
`format.h` folds a lower-case letter to upper case (`ch + 'A' - 'a'`). -/
def Capitalize (ch : Char) : Char :=
  if 'a' ≤ ch ∧ ch ≤ 'z' then Char.ofNat (ch.toNat - 32) else ch

/-- Modelled from the spec: `FormatControl::PeekNext` of the missing
`format.h` returns the character under the cursor, or NUL at or past the
end of the FORMAT. -/
def PeekNext (s : IoState) : Char :=
  if s.offset < s.formatLength then s.format.getD s.offset.toNat nul else nul

/-- Modelled from the spec: `FormatControl::GetNextChar` of the missing
`format.h` consumes and returns the character under the cursor, crashing
when the cursor is at the end of the FORMAT (the FORMAT is missing its
closing right parenthesis). -/
def GetNextChar (s : IoState) : Except String (Char × IoState) :=
  if s.offset < s.formatLength then
    Except.ok (s.format.getD s.offset.toNat nul, { s with offset := s.offset + 1 })
  else
    Except.error "FORMAT missing at least one right parenthesis"

/-- Modelled from the spec: `IoErrorHandler::SignalEor` of the missing
`io-error.h` records the end-of-record condition on the statement. -/
def SignalEor (s : IoState) : IoState := { s with eor := true }

/-- Modelled from the spec: `IoErrorHandler::GetIoStat` of the missing
`io-error.h` returns 0 when no condition was recorded and a nonzero status
otherwise (the spec leaves the nonzero value opaque; it is modelled as 1). -/
def GetIoStat (s : IoState) : Int := if s.eor then 1 else 0

/-- Overwriting `data.length` characters of `buf` at position `pos`
(the effect of `std::memcpy(internal_ + pos, data, data.length)`). -/
def writeList (buf : List Char) (pos : Nat) (data : List Char) : List Char :=
  buf.take pos ++ data ++ buf.drop (pos + data.length)

/-- `InternalFormattedIoStatementState<false, char>::Emit` from
`io-stmt.cpp`: copy `data` into the buffer at `at_` and advance, or, when
it does not fit, signal end of record, copy the prefix that fits, pin
`at_` to the end and return false. -/
def Emit (s : IoState) (data : List Char) : Bool × IoState :=
  let chars := data.length
  if s.internal.length < s.at_ + chars then
    let s1 := SignalEor s
    if s1.at_ < s1.internal.length then
      (false, { s1 with
        internal := writeList s1.internal s1.at_ (data.take (s1.internal.length - s1.at_)),
        at_ := s1.internal.length })
    else
      (false, s1)
  else
    (true, { s with internal := writeList s.internal s.at_ data, at_ := s.at_ + chars })

/-- `InternalFormattedIoStatementState<false, char>::HandleAbsolutePosition`
from `io-stmt.cpp`. -/
def HandleAbsolutePosition (s : IoState) (n : Int) : Bool × IoState :=
  let n := if n < 0 then 0 else n
  if s.internal.length ≤ n.toNat then
    (false, SignalEor s)
  else
    (true, { s with at_ := n.toNat })

/-- `InternalFormattedIoStatementState<false, char>::HandleRelativePosition`
from `io-stmt.cpp`: saturate at 0 moving left; signal end of record and pin
to the buffer length moving right past the end. -/
def HandleRelativePosition (s : IoState) (n : Int) : Bool × IoState :=
  if n < 0 then
    (true, { s with at_ := s.at_ - min s.at_ (-n).toNat })
  else if s.internal.length < s.at_ + n.toNat then
    (false, { SignalEor s with at_ := s.internal.length })
  else
    (true, { s with at_ := s.at_ + n.toNat })

/-- `FormatContext::HandleSlash` from `format.cpp`: the internal formatted
output statement does not override it (the override in `io-stmt.h` is
commented out), so a slash crashes. -/
def HandleSlash (_s : IoState) (_n : Int) : Except String IoState :=
  Except.error "A / control edit descriptor may not appear in this FORMAT string"

/-! ### The integer output converter (`IONAME(OutputInteger64)` of `io.cpp`)

The four digit-conversion loops fill a scratch buffer from the right; they
are modelled as functions producing the most-significant-first digit list.
Each takes a fuel argument so that it is structurally recursive; the entry
points pass `un` itself as fuel, which strictly dominates the number of
iterations (each iteration divides a positive `un` by at least 2, or by 10). -/

/-- The `case 'G': case 'I':` conversion loop: repeated division by 10,
emitting `'0' + un % 10`. -/
def DecimalDigits : Nat → Nat → List Char
  | 0, _ => []
  | fuel + 1, un =>
    if un = 0 then [] else DecimalDigits fuel (un / 10) ++ [Char.ofNat (48 + un % 10)]

/-- The `case 'B':` conversion loop: `un >>= 1`, emitting `'0' + (un & 1)`. -/
def BinaryDigits : Nat → Nat → List Char
  | 0, _ => []
  | fuel + 1, un =>
    if un = 0 then [] else BinaryDigits fuel (un / 2) ++ [Char.ofNat (48 + un % 2)]

/-- The `case 'O':` conversion loop: `un >>= 3`, emitting `'0' + (un & 7)`. -/
def OctalDigits : Nat → Nat → List Char
  | 0, _ => []
  | fuel + 1, un =>
    if un = 0 then [] else OctalDigits fuel (un / 8) ++ [Char.ofNat (48 + un % 8)]

/-- The `case 'Z':` conversion loop: `un >>= 4`, with digits at least 10
written `'A' + (digit - 10)`. -/
def HexDigits : Nat → Nat → List Char
  | 0, _ => []
  | fuel + 1, un =>
    if un = 0 then []
    else
      HexDigits fuel (un / 16) ++
        [if 10 ≤ un % 16 then Char.ofNat (65 + (un % 16 - 10)) else Char.ofNat (48 + un % 16)]

/-- `std::uint64_t un{static_cast<std::uint64_t>(n < 0 ? -n : n)}`: the
magnitude of `n` as an unsigned 64-bit value (two's-complement wraparound:
the signed negation is converted modulo `2 ^ 64`). -/
def IntEditUn (n : Int) : Nat := ((if n < 0 then -n else n) % ((2 : Int) ^ 64)).toNat

/-- The `switch (edit.descriptor)` of `OutputInteger64`: the digit list for
a descriptor, or `none` for the crashing default case. -/
def digitList (descriptor : Char) (un : Nat) : Option (List Char) :=
  if descriptor = 'G' ∨ descriptor = 'I' then some (DecimalDigits un un)
  else if descriptor = 'B' then some (BinaryDigits un un)
  else if descriptor = 'O' then some (OctalDigits un un)
  else if descriptor = 'Z' then some (HexDigits un un)
  else none

/-- An emission loop `for`/`while` of `OutputInteger64` that emits one
character `count` times through `Emit`, stopping at the first rejected
emission. -/
def EmitRepeated : IoState → Char → Nat → Bool × IoState
  | s, _, 0 => (true, s)
  | s, c, count + 1 =>
    match Emit s [c] with
    | (true, s1) => EmitRepeated s1 c count
    | (false, s1) => (false, s1)

/-- The `signChars` value computed inside the `case 'G': case 'I':` arm of
`OutputInteger64` (1 for a minus sign or a requested plus sign; the other
descriptor arms leave it 0). -/
def IntFieldSignChars0 (n : Int) (edit : DataEdit) : Int :=
  if (edit.descriptor = 'G' ∨ edit.descriptor = 'I') ∧ (n < 0 ∨ edit.modes.signPlus)
  then 1 else 0

/-- The `(signChars, edit.width, leadingZeroes)` triple as it stands after
the `Iw.m` block of `OutputInteger64` (`digitsN` being the number of
converted digit characters): the `Iw.0`-with-zero special case suppresses
the sign and widens `edit.width` to at least 1, an `Iw.m` with room pads
with `m - digits` zeroes, and a zero value otherwise gets one `'0'`. -/
def IntFieldSWL (n : Int) (edit : DataEdit) (digitsN : Int) : Int × Int × Int :=
  match edit.digits with
  | some d =>
    if digitsN ≤ d then
      if d = 0 ∧ n = 0 then (0, max 1 edit.width, 0)
      else (IntFieldSignChars0 n edit, edit.width, d - digitsN)
    else if n = 0 then (IntFieldSignChars0 n edit, edit.width, 1)
    else (IntFieldSignChars0 n edit, edit.width, 0)
  | none =>
    if n = 0 then (IntFieldSignChars0 n edit, edit.width, 1)
    else (IntFieldSignChars0 n edit, edit.width, 0)

/-- The body of `IONAME(OutputInteger64)` after `io->GetNext(edit)`: digit
conversion, the `Iw.m` leading-zero computation with the blank-field special
case for `Iw.0` with a zero value (`IntFieldSWL`), the all-asterisks
overflow fill, the leading-space padding (note the source returns `false`
right after it), and the sign/zero/digit emissions. -/
def OutputInteger64Edit (n : Int) (edit : DataEdit) (s : IoState) :
    Except String (Bool × IoState) :=
  match digitList edit.descriptor (IntEditUn n) with
  | none =>
    Except.error "Data edit descriptor does not correspond to an INTEGER data item"
  | some dl =>
    let swl := IntFieldSWL n edit dl.length
    let signChars := swl.1
    let width := swl.2.1
    let leadingZeroes := swl.2.2
    let total := signChars + leadingZeroes + (dl.length : Int)
    if 0 < width ∧ width < total then
      Except.ok (EmitRepeated s '*' width.toNat)
    else if total < width then
      Except.ok (false, (EmitRepeated s ' ' (width - total).toNat).2)
    else
      let r1 := if signChars ≠ 0 then Emit s (if n < 0 then ['-'] else ['+']) else (true, s)
      if r1.1 = false then Except.ok (false, r1.2)
      else
        let r2 := EmitRepeated r1.2 '0' leadingZeroes.toNat
        if r2.1 = false then Except.ok (false, r2.2)
        else Except.ok (Emit r2.2 dl)

/-- The number of converted digit characters for `n` under `edit`
(`digits = end - p` in the source), 0 for a non-integer descriptor. -/
def IntFieldDigits (n : Int) (edit : DataEdit) : Int :=
  ((digitList edit.descriptor (IntEditUn n)).getD []).length

/-- The `total` of `OutputInteger64`:
`signChars + leadingZeroes + digits` after the `Iw.m` block. -/
def IntFieldTotal (n : Int) (edit : DataEdit) : Int :=
  let swl := IntFieldSWL n edit (IntFieldDigits n edit)
  swl.1 + swl.2.2 + IntFieldDigits n edit

/-- The field width `OutputInteger64` compares `total` against: `edit.width`
as it stands after the `Iw.m` block (widened to at least 1 in the
`Iw.0`-with-zero special case). -/
def IntFieldWidth (n : Int) (edit : DataEdit) : Int :=
  (IntFieldSWL n edit (IntFieldDigits n edit)).2.1

/-! ### `FormatControl` (from `format.cpp`) -/

/-- The `while (ch >= '0' && ch <= '9')` loop of
`FormatControl::GetIntField`: accumulate the decimal value, consuming the
cursor except for the already-consumed first character; overflow past
`INT_MAX / 10 - digit` crashes.  `firstCh` plays the C++ role: while it is
not NUL the character under scrutiny is it and the cursor does not move.
The fuel passed by `GetIntField` strictly exceeds the possible number of
iterations (each pass either clears `firstCh` or advances the cursor, and
the loop stops at the end of the FORMAT where `PeekNext` yields NUL), so
the fuel-exhaustion branch is unreachable. -/
def GetIntFieldLoop : Nat → IoState → Char → Int → Except String (Int × IoState)
  | 0, _, _, _ => Except.error "internal error: FORMAT integer scan fuel exhausted"
  | fuel + 1, s, firstCh, result =>
    let ch := if firstCh ≠ nul then firstCh else PeekNext s
    if isDigitChar ch then
      if 214748364 - ((ch.toNat : Int) - 48) < result then
        Except.error "FORMAT integer field out of range"
      else
        let result := 10 * result + ((ch.toNat : Int) - 48)
        if firstCh ≠ nul then GetIntFieldLoop fuel s nul result
        else GetIntFieldLoop fuel { s with offset := s.offset + 1 } nul result
    else Except.ok (result, s)

/-- `FormatControl::GetIntField`: parse a signed integer field at the
cursor, `firstCh` being a first character the caller has already consumed
(NUL for none). -/
def GetIntField (s : IoState) (firstCh : Char) : Except String (Int × IoState) :=
  let ch := if firstCh ≠ nul then firstCh else PeekNext s
  if ch ≠ '-' ∧ ch ≠ '+' ∧ ¬isDigitChar ch then
    Except.error "Invalid FORMAT: integer expected"
  else
    let negate := ch = '-'
    let fc := if negate then nul else firstCh
    match GetIntFieldLoop ((s.formatLength - s.offset).toNat + 2) s fc 0 with
    | Except.error e => Except.error e
    | Except.ok (result, s1) =>
      let result := if negate then -result else result
      if negate ∧ 0 < result then Except.error "FORMAT integer field out of range"
      else Except.ok (result, s1)

/-- `HandleControl` from `format.cpp`: apply one control edit descriptor
(`ch` with optional second letter `next` and integer field `n`) to the
modes, the scale factor (a `std::uint16_t`, so reduced modulo `2 ^ 16`) or
the statement position; any unlisted combination crashes.  The boolean
results of the position handlers are discarded, as in the source. -/
def HandleControl (s : IoState) (ch next : Char) (n : Int) : Except String IoState :=
  if ch = 'B' ∧ next = 'Z' then
    Except.ok { s with modes := { s.modes with blankZero := true } }
  else if ch = 'B' ∧ next = 'N' then
    Except.ok { s with modes := { s.modes with blankZero := false } }
  else if ch = 'D' ∧ next = 'C' then
    Except.ok { s with modes := { s.modes with decimalComma := true } }
  else if ch = 'D' ∧ next = 'P' then
    Except.ok { s with modes := { s.modes with decimalComma := false } }
  else if ch = 'P' ∧ next = nul then
    Except.ok { s with scale := (n % 65536).toNat }
  else if ch = 'R' ∧ next = 'N' then
    Except.ok { s with modes := { s.modes with roundingMode := RoundingMode.tiesToEven } }
  else if ch = 'R' ∧ next = 'Z' then
    Except.ok { s with modes := { s.modes with roundingMode := RoundingMode.toZero } }
  else if ch = 'R' ∧ next = 'U' then
    Except.ok { s with modes := { s.modes with roundingMode := RoundingMode.up } }
  else if ch = 'R' ∧ next = 'D' then
    Except.ok { s with modes := { s.modes with roundingMode := RoundingMode.down } }
  else if ch = 'R' ∧ next = 'C' then
    Except.ok { s with modes := { s.modes with roundingMode := RoundingMode.tiesAwayFromZero } }
  else if ch = 'X' ∧ next = nul then
    Except.ok (HandleRelativePosition s n).2
  else if ch = 'S' ∧ next = 'P' then
    Except.ok { s with modes := { s.modes with signPlus := true } }
  else if ch = 'S' ∧ (next = nul ∨ next = 'S') then
    Except.ok { s with modes := { s.modes with signPlus := false } }
  else if ch = 'T' ∧ next = nul then
    Except.ok (HandleAbsolutePosition s n).2
  else if ch = 'T' ∧ (next = 'L' ∨ next = 'R') then
    Except.ok (HandleRelativePosition s (if next = 'L' then -n else n)).2
  else
    Except.error "Unknown edit descriptor in FORMAT"

/-- The `while (ch == ',' || ch == ':')` skip at the head of each
`CueUpNextDataEdit` iteration: skip commas, return-with-0 (`none` here) at
a colon when stopping.  The fuel passed by the caller strictly exceeds the
possible number of iterations (each one consumes a character). -/
def CommaSkipLoop : Nat → Bool → Char → IoState → Except String (Option Char × IoState)
  | 0, _, _, _ => Except.error "internal error: FORMAT comma scan fuel exhausted"
  | fuel + 1, stop, ch, s =>
    if ch = ',' ∨ ch = ':' then
      if stop ∧ ch = ':' then Except.ok (none, s)
      else
        match GetNextChar s with
        | Except.error e => Except.error e
        | Except.ok (ch1, s1) => CommaSkipLoop fuel stop (Capitalize ch1) s1
    else Except.ok (some ch, s)

/-- The `while (offset_ < formatLength_ && format_[offset_] != quote)` scan
of a quoted character literal: advance the cursor to the closing quote or
to the end of the FORMAT.  The fuel passed by the caller strictly exceeds
the possible number of iterations. -/
def ScanToQuote : Nat → IoState → Char → IoState
  | 0, s, _ => s
  | fuel + 1, s, quote =>
    if s.offset < s.formatLength ∧ s.format.getD s.offset.toNat nul ≠ quote then
      ScanToQuote fuel { s with offset := s.offset + 1 } quote
    else s

/-- The dispatch tail of one iteration of the `while (true)` loop of
`FormatControl::CueUpNextDataEdit`, from the point where the optional
repeat count `rpt`, the `unlimitedFlag` and the decisive character `ch`
have been read; `next` is the continuation running the remaining
iterations (`CueUpNextDataEdit` passes its remaining fuel). -/
def CueUpDispatch (next : IoState → Int → Option (Except String (Int × IoState)))
    (s : IoState) (stop : Bool) (ulc : Int)
    (rpt : Option Int) (unlimitedFlag : Bool) (ch : Char) :
    Option (Except String (Int × IoState)) :=
  if ch = '(' then
    if s.maxHeight ≤ s.height then
      some (Except.error "FORMAT stack overflow: too many nested parentheses")
    else
      let rem : Int :=
        if unlimitedFlag ∨ s.height = 0 then unlimited
        else
          match rpt with
          | some r => (if r ≤ 0 then 1 else r) - 1
          | none => 0
      let ulc1 := if unlimitedFlag ∨ s.height = 0 then s.offset - 1 else ulc
      next { s with stack := { start := s.offset - 1, remaining := rem } :: s.stack } ulc1
  else if s.height = 0 then
    some (Except.error "FORMAT lacks initial left parenthesis")
  else if ch = ')' then
    if s.height = 1 ∧ ¬stop then
      some (Except.error "A / control edit descriptor may not appear in this FORMAT string")
    else if s.height = 1 ∧ stop then
      some (Except.ok (0, s))
    else
      let top := s.stack.headD { start := 0, remaining := 0 }
      if top.remaining = unlimited then
        let s1 := { s with offset := top.start + 1 }
        if s1.offset = ulc then
          some (Except.error "Unlimited repetition in FORMAT lacks data edit descriptors")
        else next s1 ulc
      else if 0 < top.remaining then
        next
          { s with offset := top.start + 1,
                   stack := { top with remaining := top.remaining - 1 } :: s.stack.tail }
          ulc
      else
        next { s with stack := s.stack.tail } ulc
  else if ch = quoteS ∨ ch = quoteD then
    let start := s.offset
    let s1 := ScanToQuote ((s.formatLength - s.offset).toNat + 1) s ch
    if s1.formatLength ≤ s1.offset then
      some (Except.error "FORMAT missing closing quote on character literal")
    else
      let s2 := { s1 with offset := s1.offset + 1 }
      let chars := (s2.offset - start).toNat
      let chars := if PeekNext s2 = ch then chars else chars - 1
      let lit := (s2.format.drop start.toNat).take chars
      next (Emit s2 lit).2 ulc
  else if ch = 'H' then
    match rpt with
    | some r =>
      if r < 1 ∨ s.formatLength < s.offset + r then
        some (Except.error "Invalid width on Hollerith in FORMAT")
      else
        let lit := (s.format.drop s.offset.toNat).take r.toNat
        let s1 := (Emit s lit).2
        next { s1 with offset := s1.offset + r } ulc
    | none => some (Except.error "Invalid width on Hollerith in FORMAT")
  else if 'A' ≤ ch ∧ ch ≤ 'Z' then
    let start := s.offset - 1
    let next0 := Capitalize (PeekNext s)
    let nx := if next0 < 'A' ∨ 'Z' < next0 then nul else next0
    if ch = 'E' ∨
        (nx = nul ∧
          (ch = 'A' ∨ ch = 'I' ∨ ch = 'B' ∨ ch = 'O' ∨ ch = 'Z' ∨
            ch = 'F' ∨ ch = 'D' ∨ ch = 'G')) then
      some (Except.ok
        ((match rpt with | some r => if 0 < r then r else 1 | none => 1),
          { s with offset := start }))
    else
      let tfield : Except String (Option Int × IoState) :=
        if ch = 'T' then
          match GetIntField s nul with
          | Except.error e => Except.error e
          | Except.ok (r, s1) => Except.ok (some r, s1)
        else Except.ok (rpt, s)
      match tfield with
      | Except.error e => some (Except.error e)
      | Except.ok (rpt1, s1) =>
        match HandleControl s1 ch nx
            (match rpt1 with | some r => if 0 < r then r else 1 | none => 1) with
        | Except.error e => some (Except.error e)
        | Except.ok s2 => next s2 ulc
  else if ch = '/' then
    match HandleSlash s (match rpt with | some r => if 0 < r then r else 1 | none => 1) with
    | Except.error e => some (Except.error e)
    | Except.ok s1 => next s1 ulc
  else
    some (Except.error "Invalid character in FORMAT")

/-- `FormatControl::CueUpNextDataEdit`: one fuel unit per iteration of the
source's `while (true)` loop; `none` when the fuel runs out (so `none` for
every fuel exhibits a non-terminating walk).  `ulc` is the local variable
`unlimitedLoopCheck` (initially `-1`).  The result integer is the repeat
count of the data edit descriptor the cursor was backed up to, or 0 for
the stopping returns.  Emissions of literals and Hollerith payloads go
through `Emit` with the result discarded, as in the source, where
`FormatContext::Emit` dispatches to the statement's override. -/
def CueUpNextDataEdit : Nat → IoState → Bool → Int → Option (Except String (Int × IoState))
  | 0, _, _, _ => none
  | fuel + 1, s, stop, ulc =>
    match GetNextChar s with
    | Except.error e => some (Except.error e)
    | Except.ok (ch0, sA) =>
    match CommaSkipLoop ((sA.formatLength - sA.offset).toNat + 2) stop (Capitalize ch0) sA with
    | Except.error e => some (Except.error e)
    | Except.ok (none, sB) => some (Except.ok (0, sB))
    | Except.ok (some chB, sB) =>
    let rp : Except String (Option Int × Bool × Char × IoState) :=
      if chB = '-' ∨ chB = '+' ∨ isDigitChar chB then
        match GetIntField sB chB with
        | Except.error e => Except.error e
        | Except.ok (r, s1) =>
          match GetNextChar s1 with
          | Except.error e => Except.error e
          | Except.ok (ch1, s2) => Except.ok (some r, false, ch1, s2)
      else if chB = '*' then
        match GetNextChar sB with
        | Except.error e => Except.error e
        | Except.ok (ch1, s1) =>
          if ch1 ≠ '(' then
            Except.error "Invalid FORMAT: asterisk may appear only before left parenthesis"
          else Except.ok (none, true, ch1, s1)
      else Except.ok (none, false, chB, sB)
    match rp with
    | Except.error e => some (Except.error e)
    | Except.ok (rpt, unlimitedFlag, ch, s) =>
      CueUpDispatch (fun t ulc1 => CueUpNextDataEdit fuel t stop ulc1) s stop ulc
        rpt unlimitedFlag ch

/-- The field-parsing tail of `FormatControl::GetNext`: the width, the
optional `.digits` and exponent-digit fields, and the snapshot of the
mutable modes taken right after the width (factored out of `GetNext` so
the three `GetIntField` reads can be reasoned about in one place). -/
def GetNextParseFields (s1v : IoState) :
    Except String (Int × MutableModes × Option Int × Option Int × IoState) :=
  match GetIntField s1v nul with
  | Except.error e => Except.error e
  | Except.ok (width, s2) =>
    let modes := s2.modes
    let dres : Except String (Option Int × Option Int × IoState) :=
      if PeekNext s2 = '.' then
        match GetIntField { s2 with offset := s2.offset + 1 } nul with
        | Except.error e => Except.error e
        | Except.ok (digits, s3) =>
          let ch2 := PeekNext s3
          if ch2 = 'e' ∨ ch2 = 'E' ∨ ch2 = 'd' ∨ ch2 = 'D' then
            match GetIntField { s3 with offset := s3.offset + 1 } nul with
            | Except.error e => Except.error e
            | Except.ok (expo, s4) => Except.ok (some digits, some expo, s4)
          else Except.ok (some digits, none, s3)
      else Except.ok (none, none, s2)
    match dres with
    | Except.error e => Except.error e
    | Except.ok (digitsOpt, expoOpt, s5) =>
      Except.ok (width, modes, digitsOpt, expoOpt, s5)

/-- `FormatControl::GetNext`: cue up the next data edit descriptor, then
read the descriptor letter, the optional variation letter (`E` only), the
width, the optional `.digits` and exponent-digit fields, snapshot the
modes, push a frame for a repeated non-parenthesized descriptor, and batch
up to `maxRepeat` applications of a pending repeated descriptor. -/
def GetNext (fuel : Nat) (s : IoState) (maxRepeat : Int) :
    Option (Except String (DataEdit × IoState)) :=
  match CueUpNextDataEdit fuel s false (-1) with
  | none => none
  | some (Except.error e) => some (Except.error e)
  | some (Except.ok (rpt, s0)) =>
    let start := s0.offset
    match GetNextChar s0 with
    | Except.error e => some (Except.error e)
    | Except.ok (chD, s1) =>
    let descriptor := Capitalize chD
    let vs : Char × IoState :=
      if descriptor = 'E' then
        let v := Capitalize (PeekNext s1)
        if 'A' ≤ v ∧ v ≤ 'Z' then (v, { s1 with offset := s1.offset + 1 }) else (nul, s1)
      else (nul, s1)
    match GetNextParseFields vs.2 with
    | Except.error e => some (Except.error e)
    | Except.ok (width, modes, digitsOpt, expoOpt, s5) =>
    let s6 :=
      if 1 < rpt then { s5 with stack := { start := start, remaining := rpt } :: s5.stack }
      else s5
    let res : Int × IoState :=
      if 1 < s6.height then
        let top := s6.stack.headD { start := 0, remaining := 0 }
        if s6.format.getD top.start.toNat nul ≠ '(' then
          if maxRepeat < top.remaining then
            (maxRepeat,
              { s6 with stack := { top with remaining := top.remaining - maxRepeat } :: s6.stack.tail,
                        offset := top.start })
          else (top.remaining, { s6 with stack := s6.stack.tail })
        else (1, s6)
      else (1, s6)
    some (Except.ok
      ({ descriptor := descriptor, variation := vs.1, width := width,
         digits := digitsOpt, expoDigits := expoOpt, repeatCount := res.1,
         modes := modes }, res.2))

/-- `FormatControl::FinishOutput`: the stopping variant of the walk, run by
`EndIoStatement` to drain the FORMAT trailer. -/
def FinishOutput (fuel : Nat) (s : IoState) : Option (Except String IoState) :=
  match CueUpNextDataEdit fuel s true (-1) with
  | none => none
  | some (Except.error e) => some (Except.error e)
  | some (Except.ok r) => some (Except.ok r.2)

/-- `InternalFormattedIoStatementState<false>::EndIoStatement` from
`io-stmt.cpp`: drain the format trailer, then return the accumulated I/O
status (the freeing of the statement's storage is not modelled). -/
def EndIoStatement (fuel : Nat) (s : IoState) : Option (Except String (Int × IoState)) :=
  match FinishOutput fuel s with
  | none => none
  | some (Except.error e) => some (Except.error e)
  | some (Except.ok s1) => some (Except.ok (GetIoStat s1, s1))

/-- `IONAME(OutputInteger64)` from `io.cpp`: pull one data edit and convert
the 64-bit integer under it. -/
def OutputInteger64 (fuel : Nat) (n : Int) (s : IoState) :
    Option (Except String (Bool × IoState)) :=
  match GetNext fuel s 1 with
  | none => none
  | some (Except.error e) => some (Except.error e)
  | some (Except.ok (edit, s1)) => some (OutputInteger64Edit n edit s1)

/-- Modelled from the spec: the mode of the `FormatValidator` pre-pass
(§4.1, its code is not in the repository snapshot) at a given point of its
single scan: plain scanning, inside a quoted character literal, or inside
the opaque payload of a Hollerith field with `remaining` payload
characters left. -/
inductive ScanMode where
  | normal
  | literal (quote : Char)
  | hollerith (remaining : Nat)
  deriving DecidableEq, Repr

/-- Modelled from the spec: the whole state of the validator's scan: the
mode, the value of the immediately preceding digit run (for a Hollerith
width), the current parenthesis depth and the maximum depth observed. -/
structure ScanState where
  mode : ScanMode
  pending : Option Int
  depth : Int
  maxDepth : Int
  deriving DecidableEq, Repr

/-- The validator's scan state before any character. -/
def initScan : ScanState :=
  { mode := ScanMode.normal, pending := none, depth := 0, maxDepth := 0 }

/-- Modelled from the spec: one character of the validator's scan
(§4.1): literal characters are opaque until the closing quote, a
Hollerith payload is opaque for its counted width, parentheses track the
depth, a digit run accumulates a possible Hollerith width, and any other
character ends the digit run. -/
def scanStep (st : ScanState) (c : Char) : ScanState :=
  match st.mode with
  | ScanMode.literal q =>
    if c = q then { st with mode := ScanMode.normal } else st
  | ScanMode.hollerith k =>
    if k ≤ 1 then { st with mode := ScanMode.normal }
    else { st with mode := ScanMode.hollerith (k - 1) }
  | ScanMode.normal =>
    if c = '(' then
      { st with depth := st.depth + 1, maxDepth := max st.maxDepth (st.depth + 1),
                pending := none }
    else if c = ')' then { st with depth := st.depth - 1, pending := none }
    else if c = quoteS ∨ c = quoteD then { st with mode := ScanMode.literal c, pending := none }
    else if isDigitChar c then
      { st with pending := some ((st.pending.getD 0) * 10 + ((c.toNat : Int) - 48)) }
    else if c = 'H' ∨ c = 'h' then
      match st.pending with
      | some r =>
        if r ≤ 0 then { st with pending := none }
        else { st with mode := ScanMode.hollerith r.toNat, pending := none }
      | none => { st with pending := none }
    else { st with pending := none }

/-- The validator's scan state after the first `p` characters of the
FORMAT. -/
def scanAt (format : List Char) (p : Nat) : ScanState :=
  (format.take p).foldl scanStep initScan

/-- The validator's scan state over the whole FORMAT. -/
def scanFormat (format : List Char) : ScanState :=
  format.foldl scanStep initScan

/-- The validator's `maxNesting()` for a FORMAT string. -/
def maxNesting (format : List Char) : Int := (scanFormat format).maxDepth

/-- The walk's cursor is in bounds at a point the validator's scan passes
in plain mode at parenthesis depth `d`. -/
def CursorAt (format : List Char) (p : Int) (d : Int) : Prop :=
  0 ≤ p ∧ p ≤ (format.length : Int) ∧
  (scanAt format p.toNat).mode = ScanMode.normal ∧
  (scanAt format p.toNat).depth = d

/-- At the cursor, a pending digit run in the validator's scan state can
only stem from characters the walk has itself consumed maximally: if the
character under the cursor is a digit, no digit run is pending. -/
def PendingOk (format : List Char) (p : Int) : Prop :=
  (scanAt format p.toNat).pending = none ∨ ¬ isDigitChar (format.getD p.toNat nul)

/-- An iteration-stack frame standing for an open parenthesized group:
its `start` is the offset of a `(` that the validator's scan passes in
plain mode at depth `below`, the number of frames beneath it. -/
def ParenFrame (format : List Char) (fr : Iteration) (below : Nat) : Prop :=
  0 ≤ fr.start ∧ fr.start < (format.length : Int) ∧
  format.getD fr.start.toNat nul = '(' ∧
  (scanAt format fr.start.toNat).mode = ScanMode.normal ∧
  (scanAt format fr.start.toNat).depth = (below : Int)

/-- The iteration stack (innermost frame first) is a chain of open
parenthesized groups. -/
def ParenStack (format : List Char) : List Iteration → Prop
  | [] => True
  | fr :: rest => ParenFrame format fr rest.length ∧ ParenStack format rest

/-- Offset `p` carries a data edit descriptor: the dispatch test of
`CueUpNextDataEdit` (folded descriptor letter `E`, or one of
`A I B O Z F D G` not followed by another letter) succeeds there. -/
def DataEditAt (format : List Char) (p : Int) : Prop :=
  0 ≤ p ∧ p < (format.length : Int) ∧
  (let ch := Capitalize (format.getD p.toNat nul)
   let next0 := Capitalize
     (if p + 1 < (format.length : Int) then format.getD (p + 1).toNat nul else nul)
   let next := if next0 < 'A' ∨ 'Z' < next0 then nul else next0
   ch = 'E' ∨
     (next = nul ∧
       (ch = 'A' ∨ ch = 'I' ∨ ch = 'B' ∨ ch = 'O' ∨ ch = 'Z' ∨
         ch = 'F' ∨ ch = 'D' ∨ ch = 'G')))

/-- The walk invariant: `maxHeight` is the validator's maximum nesting
plus two, and the iteration stack is a chain of open groups matching the
scan depth at the cursor — with, possibly, one frame for a repeated
non-parenthesized edit descriptor on top, in which case the cursor is
pinned to that descriptor. -/
def Inv (s : IoState) : Prop :=
  s.maxHeight = maxNesting s.format + 2 ∧
  ((ParenStack s.format s.stack ∧ CursorAt s.format s.offset (s.stack.length : Int) ∧
      PendingOk s.format s.offset) ∨
   (∃ rf rest, s.stack = rf :: rest ∧ 1 ≤ rest.length ∧
      s.format.getD rf.start.toNat nul ≠ '(' ∧ ParenStack s.format rest ∧
      s.offset = rf.start ∧ DataEditAt s.format rf.start ∧
      CursorAt s.format rf.start (rest.length : Int)))

/-- The bound the walk maintains: the cursor inside `[0, formatLength]`
and the iteration stack strictly below `maxHeight` (so one more frame
still fits). -/
def WalkBounds (s : IoState) : Prop :=
  0 ≤ s.offset ∧ s.offset ≤ s.formatLength ∧ s.height ≤ s.maxHeight - 1

/-- What holds of a `CueUpNextDataEdit` result delivered from a state
satisfying the walk invariant: fuel may run out (the unlimited-loop bug),
an error is never the stack-overflow diagnostic, and a normal return is in
bounds — with, unless it is one of the stopping returns (repeat count 0),
the invariant re-established and the cursor on a data edit descriptor over
a nonempty stack. -/
def CueUpPost (stop : Bool) (r : Option (Except String (Int × IoState))) : Prop :=
  match r with
  | none => True
  | some (Except.error e) => e ≠ "FORMAT stack overflow: too many nested parentheses"
  | some (Except.ok (rpt, t)) =>
    WalkBounds t ∧ (stop = false → rpt ≠ 0) ∧
    (rpt ≠ 0 → Inv t ∧ DataEditAt t.format t.offset ∧ 1 ≤ t.stack.length) ∧
    (1 < rpt → ParenStack t.format t.stack ∧
      CursorAt t.format t.offset (t.stack.length : Int))

/-- Modelled from the spec: `IONAME(BeginInternalFormattedOutput)`
constructs the statement state — the buffer prefilled with spaces, the
cursor at 0 and an empty iteration stack — with
`maxHeight = maxNesting + 2` (§4.5; the `FormatControl` constructor
argument is supplied by the missing `format.h`), and the constructor from
`format.cpp` crashes when `maxHeight` exceeds `INT8_MAX`. -/
def BeginInternalFormattedOutput (internalLength : Nat) (format : List Char) :
    Except String IoState :=
  let mh := maxNesting format + 2
  if 127 < mh then Except.error "internal Fortran runtime error: maxHeight"
  else
    Except.ok
      { format := format, offset := 0, stack := [], maxHeight := mh, scale := 0,
        modes := defaultModes, internal := List.replicate internalLength ' ',
        at_ := 0, eor := false }

/-- One `IONAME(OutputInteger64)` call per data item, collecting the
returned booleans, as the test driver in `src/unnamed/part_000` does. -/
def RunItems (fuel : Nat) : List Int → IoState → List Bool →
    Option (Except String (List Bool × IoState))
  | [], s, acc => some (Except.ok (acc.reverse, s))
  | n :: rest, s, acc =>
    match OutputInteger64 fuel n s with
    | none => none
    | some (Except.error e) => some (Except.error e)
    | some (Except.ok (b, s1)) => RunItems fuel rest s1 (b :: acc)

/-- A whole internal formatted output statement, as the repository's test
driver runs one: `BeginInternalFormattedOutput` on a fresh buffer, one
`OutputInteger64` per item, then `EndIoStatement`; the results are the
booleans the output calls returned, the final status and the buffer. -/
def RunInternalOutput (fuel internalLength : Nat) (format : String) (items : List Int) :
    Option (Except String (List Bool × Int × String)) :=
  match BeginInternalFormattedOutput internalLength format.data with
  | Except.error e => some (Except.error e)
  | Except.ok s0 =>
    match RunItems fuel items s0 [] with
    | none => none
    | some (Except.error e) => some (Except.error e)
    | some (Except.ok (bs, s1)) =>
      match EndIoStatement fuel s1 with
      | none => none
      | some (Except.error e) => some (Except.error e)
      | some (Except.ok (stat, s2)) => some (Except.ok (bs, stat, String.mk s2.internal))

/-- A FORMAT whose unlimited `*(…)` group contains no data edit
descriptors: the characters of `(*())`. -/
def UnlimitedLoopFormat : List Char := String.data "(*())"

/-- The state the walk over `UnlimitedLoopFormat` reaches after consuming
the opening parenthesis and the unlimited group's `*(`: the cursor sits on
the inner right parenthesis with both frames unlimited.  Every further
iteration of `CueUpNextDataEdit` reproduces exactly this state (the local
`unlimitedLoopCheck` being 2, the offset of the inner left parenthesis). -/
def UnlimitedLoopState : IoState :=
  { format := UnlimitedLoopFormat, offset := 3,
    stack := [{ start := 2, remaining := -1 }, { start := 0, remaining := -1 }],
    maxHeight := 4, scale := 0, modes := defaultModes,
    internal := List.replicate 8 ' ', at_ := 0, eor := false }

/-- The state `BeginInternalFormattedOutput` builds for
`UnlimitedLoopFormat` on an 8-character buffer (`maxNesting` of the format
is 2, so `maxHeight` is 4). -/
def UnlimitedLoopBegin : IoState :=
  { format := UnlimitedLoopFormat, offset := 0, stack := [], maxHeight := 4, scale := 0,
    modes := defaultModes, internal := List.replicate 8 ' ', at_ := 0, eor := false }

/-! ### Helper lemmas about the emission primitives -/

theorem writeList_length (buf : List Char) (pos : Nat) (data : List Char)
    (h : pos + data.length ≤ buf.length) :
    (writeList buf pos data).length = buf.length := by
  simp [writeList]
  omega

theorem writeList_nil (buf : List Char) (pos : Nat) : writeList buf pos [] = buf := by
  simp [writeList]

theorem take_append_one (buf : List Char) (pos : Nat) (c : Char) (tail : List Char)
    (h : pos ≤ buf.length) :
    ((buf.take pos ++ [c]) ++ tail).take (pos + 1) = buf.take pos ++ [c] := by
  have h1 : (buf.take pos ++ [c]).length = pos + 1 := by
    simp
    omega
  rw [List.take_append_of_le_length (by omega), List.take_of_length_le (by omega)]

theorem drop_append_one (buf : List Char) (pos : Nat) (c : Char) (tail : List Char)
    (h : pos ≤ buf.length) :
    ((buf.take pos ++ [c]) ++ tail).drop (pos + 1) = tail := by
  have h1 : (buf.take pos ++ [c]).length = pos + 1 := by
    simp
    omega
  rw [← h1, List.drop_left]

/-- Overwriting one character and then `k` more characters right after it
is overwriting `k + 1` characters. -/
theorem writeList_cons_replicate (buf : List Char) (pos : Nat) (c : Char) (k : Nat)
    (h : pos + 1 ≤ buf.length) :
    writeList (writeList buf pos [c]) (pos + 1) (List.replicate k c)
      = writeList buf pos (List.replicate (k + 1) c) := by
  unfold writeList
  have hd : pos + [c].length = pos + 1 := by simp
  rw [hd]
  rw [take_append_one buf pos c _ (by omega)]
  have h2 : pos + 1 + (List.replicate k c).length = pos + 1 + k := by
    simp
  rw [h2, ← List.drop_drop k (pos + 1)]
  rw [drop_append_one buf pos c _ (by omega)]
  have h3 : pos + (List.replicate (k + 1) c).length = pos + 1 + k := by
    simp
    omega
  rw [h3, List.drop_drop]
  simp [List.append_assoc, List.replicate_succ]

/-- A successful `Emit`: with room in the buffer, `Emit` copies the data at
`at_`, advances `at_` and returns true. -/
theorem Emit_ok (s : IoState) (data : List Char)
    (h : s.at_ + data.length ≤ s.internal.length) :
    Emit s data =
      (true, { s with internal := writeList s.internal s.at_ data,
                      at_ := s.at_ + data.length }) := by
  simp only [Emit]
  split
  · exfalso
    omega
  · rfl

/-- A successful emission loop: with room for all `k` characters,
`EmitRepeated` writes `k` copies of `c` at `at_`, advances `at_` by `k` and
reports completion. -/
theorem EmitRepeated_ok (c : Char) : ∀ (k : Nat) (s : IoState),
    s.at_ + k ≤ s.internal.length →
    EmitRepeated s c k =
      (true, { s with internal := writeList s.internal s.at_ (List.replicate k c),
                      at_ := s.at_ + k })
  | 0, s, _h => by
    simp [EmitRepeated, writeList_nil]
  | k + 1, s, h => by
    have h1 : s.at_ + [c].length ≤ s.internal.length := by
      simp
      omega
    have hlen : (writeList s.internal s.at_ [c]).length = s.internal.length := by
      rw [writeList_length]
      simpa using h1
    simp only [EmitRepeated, Emit_ok s [c] h1]
    rw [EmitRepeated_ok c k _ (by simp [hlen]; omega)]
    simp only [Prod.mk.injEq, true_and]
    rcases s with ⟨fm, off, st, mh, sc, md, intl, at0, e0⟩
    simp only [IoState.mk.injEq, and_true, true_and]
    constructor
    · exact writeList_cons_replicate intl at0 c k (by simpa using h1)
    · simp
      omega

/-- Bounds on the `Iw.m` block's results: the sign-character count is 0
or 1, the leading-zero count is non-negative, and the field width is the
edit's width, possibly widened to at least 1 by the `Iw.0`-with-zero
special case. -/
theorem IntFieldSWL_facts (n : Int) (edit : DataEdit) (digitsN : Int) :
    (0 ≤ (IntFieldSWL n edit digitsN).1 ∧ (IntFieldSWL n edit digitsN).1 ≤ 1) ∧
    0 ≤ (IntFieldSWL n edit digitsN).2.2 ∧
    ((IntFieldSWL n edit digitsN).2.1 = edit.width ∨
      (IntFieldSWL n edit digitsN).2.1 = max 1 edit.width) := by
  cases hd : edit.digits <;>
    simp only [IntFieldSWL, IntFieldSignChars0, hd] <;>
    split_ifs <;> simp_all

/-- The sign/leading-zero/digit emission chain at the end of
`OutputInteger64Edit` succeeds and leaves the end-of-record flag untouched
when the buffer has room for all of it. -/
theorem signZeroDigitsChain (s : IoState) (sg lz : Int) (sign dl : List Char)
    (hsg : sg = 0 ∨ sg = 1) (hsl : sign.length = 1) (hlz : 0 ≤ lz)
    (hroom : s.at_ + (sg + lz + (dl.length : Int)).toNat ≤ s.internal.length) :
    ∃ s3,
      ((if (if sg ≠ 0 then Emit s sign else (true, s)).1 = false then
        Except.ok (false, (if sg ≠ 0 then Emit s sign else (true, s)).2)
      else
        if (EmitRepeated (if sg ≠ 0 then Emit s sign else (true, s)).2 '0' lz.toNat).1 = false then
          Except.ok (false, (EmitRepeated (if sg ≠ 0 then Emit s sign else (true, s)).2 '0' lz.toNat).2)
        else
          Except.ok (Emit (EmitRepeated (if sg ≠ 0 then Emit s sign else (true, s)).2 '0' lz.toNat).2 dl)) :
        Except String (Bool × IoState))
      = Except.ok (true, s3) ∧ s3.eor = s.eor := by
  rcases hsg with h0 | h1
  · subst h0
    have e1 : (if (0 : Int) ≠ 0 then Emit s sign else (true, s)) = (true, s) := by simp
    rw [e1]
    rw [if_neg (by simp)]
    rw [EmitRepeated_ok '0' lz.toNat s (by omega)]
    rw [if_neg (by simp)]
    have hlen : (writeList s.internal s.at_ (List.replicate lz.toNat '0')).length
        = s.internal.length := by
      rw [writeList_length]
      simp
      omega
    rw [Emit_ok _ dl (by dsimp only; rw [hlen]; omega)]
    exact ⟨_, rfl, by dsimp only⟩
  · subst h1
    have e1 : (if (1 : Int) ≠ 0 then Emit s sign else (true, s)) = Emit s sign := by norm_num
    rw [e1]
    rw [Emit_ok s sign (by omega)]
    rw [if_neg (by simp)]
    have hlen1 : (writeList s.internal s.at_ sign).length = s.internal.length := by
      rw [writeList_length]
      omega
    rw [EmitRepeated_ok '0' lz.toNat _ (by dsimp only; rw [hlen1, hsl]; omega)]
    rw [if_neg (by simp)]
    have hlen2 : (writeList (writeList s.internal s.at_ sign) (s.at_ + sign.length)
        (List.replicate lz.toNat '0')).length = s.internal.length := by
      rw [writeList_length]
      · exact hlen1
      · rw [hlen1, hsl]
        simp
        omega
    rw [Emit_ok _ dl (by dsimp only; rw [hlen2, hsl]; omega)]
    exact ⟨_, rfl, by dsimp only⟩

/-- A single emission either succeeds and leaves the end-of-record flag
unchanged, or is rejected by the sink, which signals end of record. -/
theorem Emit_eor (s : IoState) (data : List Char) :
    ((Emit s data).1 = true ∧ (Emit s data).2.eor = s.eor) ∨
    ((Emit s data).1 = false ∧ (Emit s data).2.eor = true) := by
  unfold Emit SignalEor
  dsimp only
  split_ifs
  · exact Or.inr ⟨rfl, rfl⟩
  · exact Or.inr ⟨rfl, rfl⟩
  · exact Or.inl ⟨rfl, rfl⟩

/-- A repeated emission either succeeds wholly, leaving the end-of-record
flag unchanged, or stops at a rejected character with end of record
signalled. -/
theorem EmitRepeated_eor (c : Char) : ∀ (k : Nat) (s : IoState),
    ((EmitRepeated s c k).1 = true ∧ (EmitRepeated s c k).2.eor = s.eor) ∨
    ((EmitRepeated s c k).1 = false ∧ (EmitRepeated s c k).2.eor = true) := by
  intro k
  induction k with
  | zero =>
    intro s
    exact Or.inl ⟨rfl, rfl⟩
  | succ k ih =>
    intro s
    rw [EmitRepeated]
    have hE := Emit_eor s [c]
    cases hEq : Emit s [c] with
    | mk b s1 =>
      rw [hEq] at hE
      dsimp only at hE
      cases b
      · dsimp only
        rcases hE with ⟨hf, _⟩ | ⟨_, he⟩
        · exact absurd hf (by decide)
        · exact Or.inr ⟨rfl, he⟩
      · dsimp only
        rcases hE with ⟨_, he⟩ | ⟨ht, _⟩
        · rcases ih s1 with ⟨h1, h2⟩ | ⟨h1, h2⟩
          · exact Or.inl ⟨h1, h2.trans he⟩
          · exact Or.inr ⟨h1, h2⟩
        · exact absurd ht (by decide)

/-- C3 (amended): for every data item, every edit and every entry state,
when the conversion of `OutputInteger64` returns `b`: if `b` is true then
no emission was rejected (the end-of-record flag is exactly as on entry)
and the field is not under-width (`edit.width ≤ total`, covering the
exact-fit and all-asterisks overflow cases); and conversely, if the
end-of-record flag is clear on exit (no emission was rejected during a
statement whose flag starts clear, since the flag is never reset) and the
field is not under-width, then `b` is true.  Contrapositives: a rejected
emission forces `b = false` (as the claim says), but `b = false` also
arises in the under-width padding path with no rejection at all — the
source returns false right after emitting the padding blanks, which is
what corrects the claim. -/
theorem C3_output_integer_return_characterization (n : Int) (edit : DataEdit)
    (s : IoState) (b : Bool) (s₁ : IoState)
    (h : OutputInteger64Edit n edit s = Except.ok (b, s₁)) :
    (b = true → s₁.eor = s.eor ∧ IntFieldWidth n edit ≤ IntFieldTotal n edit) ∧
    (s₁.eor = false ∧ IntFieldWidth n edit ≤ IntFieldTotal n edit → b = true) := by
  rw [OutputInteger64Edit] at h
  cases hdl : digitList edit.descriptor (IntEditUn n) with
  | none =>
    rw [hdl] at h
    exact Except.noConfusion h
  | some dl =>
    rw [hdl] at h
    simp only [] at h
    have hDig : IntFieldDigits n edit = (dl.length : Int) := by
      simp [IntFieldDigits, hdl]
    have hT : IntFieldTotal n edit
        = (IntFieldSWL n edit (dl.length : Int)).1 + (IntFieldSWL n edit (dl.length : Int)).2.2
          + (dl.length : Int) := by
      rw [IntFieldTotal, hDig]
    have hW : IntFieldWidth n edit = (IntFieldSWL n edit (dl.length : Int)).2.1 := by
      rw [IntFieldWidth, hDig]
    rw [← hT, ← hW] at h
    by_cases h1 : 0 < IntFieldWidth n edit ∧ IntFieldWidth n edit < IntFieldTotal n edit
    · rw [if_pos h1] at h
      injection h with h
      rw [Prod.ext_iff] at h
      obtain ⟨hb, hs⟩ := h
      dsimp only at hb hs
      rcases EmitRepeated_eor '*' (IntFieldWidth n edit).toNat s with ⟨hf, he⟩ | ⟨hf, he⟩
      · constructor
        · intro _
          exact ⟨by rw [← hs, he], by omega⟩
        · intro _
          rw [← hb, hf]
      · constructor
        · intro hbt
          rw [← hb, hf] at hbt
          exact Bool.noConfusion hbt
        · intro he0
          obtain ⟨he0, _⟩ := he0
          rw [← hs, he] at he0
          exact Bool.noConfusion he0
    · rw [if_neg h1] at h
      by_cases h2 : IntFieldTotal n edit < IntFieldWidth n edit
      · rw [if_pos h2] at h
        injection h with h
        rw [Prod.ext_iff] at h
        obtain ⟨hb, hs⟩ := h
        dsimp only at hb hs
        constructor
        · intro hbt
          rw [← hb] at hbt
          exact Bool.noConfusion hbt
        · intro he0
          exact absurd he0.2 (by omega)
      · rw [if_neg h2] at h
        have hWT : IntFieldWidth n edit ≤ IntFieldTotal n edit := by omega
        by_cases hsg : (IntFieldSWL n edit (dl.length : Int)).1 ≠ 0
        · rw [if_pos hsg] at h
          rcases Emit_eor s (if n < 0 then ['-'] else ['+']) with ⟨h1f, h1e⟩ | ⟨h1f, h1e⟩
          · rw [if_neg (by rw [h1f]; exact fun hc => Bool.noConfusion hc)] at h
            rcases EmitRepeated_eor '0' (IntFieldSWL n edit (dl.length : Int)).2.2.toNat
                (Emit s (if n < 0 then ['-'] else ['+'])).2 with ⟨h2f, h2e⟩ | ⟨h2f, h2e⟩
            · rw [if_neg (by rw [h2f]; exact fun hc => Bool.noConfusion hc)] at h
              injection h with h
              rw [Prod.ext_iff] at h
              obtain ⟨hb, hs⟩ := h
              dsimp only at hb hs
              rcases Emit_eor (EmitRepeated (Emit s (if n < 0 then ['-'] else ['+'])).2 '0'
                  (IntFieldSWL n edit (dl.length : Int)).2.2.toNat).2 dl with
                ⟨h3f, h3e⟩ | ⟨h3f, h3e⟩
              · constructor
                · intro _
                  refine ⟨?_, hWT⟩
                  rw [← hs, h3e, h2e, h1e]
                · intro _
                  rw [← hb, h3f]
              · constructor
                · intro hbt
                  rw [← hb, h3f] at hbt
                  exact Bool.noConfusion hbt
                · intro he0
                  obtain ⟨he0, _⟩ := he0
                  rw [← hs, h3e] at he0
                  exact Bool.noConfusion he0
            · rw [if_pos h2f] at h
              injection h with h
              rw [Prod.ext_iff] at h
              obtain ⟨hb, hs⟩ := h
              dsimp only at hb hs
              constructor
              · intro hbt
                rw [← hb] at hbt
                exact Bool.noConfusion hbt
              · intro he0
                obtain ⟨he0, _⟩ := he0
                rw [← hs, h2e] at he0
                exact Bool.noConfusion he0
          · rw [if_pos h1f] at h
            injection h with h
            rw [Prod.ext_iff] at h
            obtain ⟨hb, hs⟩ := h
            dsimp only at hb hs
            constructor
            · intro hbt
              rw [← hb] at hbt
              exact Bool.noConfusion hbt
            · intro he0
              obtain ⟨he0, _⟩ := he0
              rw [← hs, h1e] at he0
              exact Bool.noConfusion he0
        · rw [if_neg hsg] at h
          dsimp only at h
          rw [if_neg (fun hc => Bool.noConfusion hc)] at h
          rcases EmitRepeated_eor '0' (IntFieldSWL n edit (dl.length : Int)).2.2.toNat s with
            ⟨h2f, h2e⟩ | ⟨h2f, h2e⟩
          · rw [if_neg (by rw [h2f]; exact fun hc => Bool.noConfusion hc)] at h
            injection h with h
            rw [Prod.ext_iff] at h
            obtain ⟨hb, hs⟩ := h
            dsimp only at hb hs
            rcases Emit_eor (EmitRepeated s '0'
                (IntFieldSWL n edit (dl.length : Int)).2.2.toNat).2 dl with
              ⟨h3f, h3e⟩ | ⟨h3f, h3e⟩
            · constructor
              · intro _
                refine ⟨?_, hWT⟩
                rw [← hs, h3e, h2e]
              · intro _
                rw [← hb, h3f]
            · constructor
              · intro hbt
                rw [← hb, h3f] at hbt
                exact Bool.noConfusion hbt
              · intro he0
                obtain ⟨he0, _⟩ := he0
                rw [← hs, h3e] at he0
                exact Bool.noConfusion he0
          · rw [if_pos h2f] at h
            injection h with h
            rw [Prod.ext_iff] at h
            obtain ⟨hb, hs⟩ := h
            dsimp only at hb hs
            constructor
            · intro hbt
              rw [← hb] at hbt
              exact Bool.noConfusion hbt
            · intro he0
              obtain ⟨he0, _⟩ := he0
              rw [← hs, h2e] at he0
              exact Bool.noConfusion he0

/-- Witness for C3: the exact-fit field `I3` with 678 on a roomy buffer:
the conversion returns true, all emissions succeed (the end-of-record flag
stays clear) and the field is not under-width. -/
theorem C3_output_integer_return_characterization_witness :
    ((true : Bool) = true → (false : Bool) = false ∧
        IntFieldWidth 678
            { descriptor := 'I', variation := nul, width := 3, digits := none,
              expoDigits := none, repeatCount := 1, modes := defaultModes }
          ≤ IntFieldTotal 678
            { descriptor := 'I', variation := nul, width := 3, digits := none,
              expoDigits := none, repeatCount := 1, modes := defaultModes }) ∧
    ((false : Bool) = false ∧
        IntFieldWidth 678
            { descriptor := 'I', variation := nul, width := 3, digits := none,
              expoDigits := none, repeatCount := 1, modes := defaultModes }
          ≤ IntFieldTotal 678
            { descriptor := 'I', variation := nul, width := 3, digits := none,
              expoDigits := none, repeatCount := 1, modes := defaultModes } →
        (true : Bool) = true) :=
  C3_output_integer_return_characterization 678
    { descriptor := 'I', variation := nul, width := 3, digits := none,
      expoDigits := none, repeatCount := 1, modes := defaultModes }
    ⟨[], 0, [], 0, 0, defaultModes, List.replicate 10 ' ', 0, false⟩ true
    ⟨[], 0, [], 0, 0, defaultModes,
      ['6', '7', '8', ' ', ' ', ' ', ' ', ' ', ' ', ' '], 3, false⟩
    (by rfl)

/-- Counterexample to C3 as stated: under the edit `I5` with value -42 on
a roomy 10-character buffer every emission succeeds (the end-of-record
flag stays false and only the two padding blanks are written, `at_` = 2),
yet the conversion returns false. -/
theorem C3_false_return_without_rejection :
    (OutputInteger64Edit (-42)
        { descriptor := 'I', variation := nul, width := 5, digits := none,
          expoDigits := none, repeatCount := 1, modes := defaultModes }
        ⟨[], 0, [], 0, 0, defaultModes, List.replicate 10 ' ', 0, false⟩).map
      (fun r => (r.1, r.2.eor, r.2.at_))
      = Except.ok (false, false, 2) := by
  rfl

/-- C7: for `Iw.0` with a zero value the emitted field is entirely blank:
the sign is suppressed whatever the modes (in particular under SP), and
exactly `max 1 w` space characters are written at the cursor.  (The
conversion's boolean result is false, per the padding path.) -/
theorem C7_blank_field_Iw0 (w : Int) (m : MutableModes) (s : IoState)
    (hroom : s.at_ + (max 1 w).toNat ≤ s.internal.length) :
    OutputInteger64Edit 0
        { descriptor := 'I', variation := nul, width := w, digits := some 0,
          expoDigits := none, repeatCount := 1, modes := m } s
      = Except.ok (false,
          { s with internal := writeList s.internal s.at_ (List.replicate (max 1 w).toNat ' '),
                   at_ := s.at_ + (max 1 w).toNat }) := by
  have hdl : digitList 'I' (IntEditUn 0) = some [] := rfl
  simp only [OutputInteger64Edit, hdl]
  have h0 : IntFieldSWL 0
      { descriptor := 'I', variation := nul, width := w, digits := some 0,
        expoDigits := none, repeatCount := 1, modes := m } (0 : Int) = (0, max 1 w, 0) := by
    simp [IntFieldSWL]
  simp only [List.length_nil, h0, Nat.cast_zero, add_zero, zero_add, sub_zero]
  rw [if_neg (by omega), if_pos (by omega), EmitRepeated_ok ' ' _ s hroom]

/-- Witness for C7: `I0.0` with 0 under SP writes one single blank over an
arbitrary two-character buffer. -/
theorem C7_blank_field_Iw0_witness :
    OutputInteger64Edit 0
        { descriptor := 'I', variation := nul, width := 0, digits := some 0,
          expoDigits := none, repeatCount := 1,
          modes := { roundingMode := RoundingMode.tiesToEven, blankZero := false,
                     decimalComma := false, signPlus := true } }
        ⟨[], 0, [], 0, 0, defaultModes, ['X', 'Y'], 0, false⟩
      = Except.ok (false, ⟨[], 0, [], 0, 0, defaultModes, [' ', 'Y'], 1, false⟩) :=
  C7_blank_field_Iw0 0
    { roundingMode := RoundingMode.tiesToEven, blankZero := false,
      decimalComma := false, signPlus := true }
    ⟨[], 0, [], 0, 0, defaultModes, ['X', 'Y'], 0, false⟩
    (by decide)

/-- C9: for every internal output statement state and data, `Emit` either
(when the data does not fit) signals end of record, copies exactly the
`internalLength - at` characters that fit, pins `at` to the buffer end and
returns false — leaving a recorded condition that makes the accumulated
I/O status nonzero — or (when it fits) copies all of it, advances `at`
and returns true. -/
theorem C9_emit_boundary (s : IoState) (data : List Char)
    (hat : s.at_ ≤ s.internal.length) :
    (s.internal.length < s.at_ + data.length →
      Emit s data = (false,
        { s with
            eor := true,
            internal := writeList s.internal s.at_ (data.take (s.internal.length - s.at_)),
            at_ := s.internal.length }) ∧
      GetIoStat (Emit s data).2 ≠ 0) ∧
    (s.at_ + data.length ≤ s.internal.length →
      Emit s data = (true,
        { s with internal := writeList s.internal s.at_ data, at_ := s.at_ + data.length })) := by
  constructor
  · intro h
    have he : Emit s data = (false,
        { s with
            eor := true,
            internal := writeList s.internal s.at_ (data.take (s.internal.length - s.at_)),
            at_ := s.internal.length }) := by
      simp only [Emit, SignalEor]
      rw [if_pos h]
      by_cases hlt : s.at_ < s.internal.length
      · rw [if_pos hlt]
      · have hae : s.at_ = s.internal.length := by omega
        rw [if_neg hlt]
        simp [hae, writeList_nil]
    exact ⟨he, by rw [he]; simp [GetIoStat]⟩
  · intro h
    exact Emit_ok s data h

/-- Witness for C9: emitting three characters into a two-character buffer
with the cursor at 1 truncates to the one character that fits, records end
of record (nonzero status) and returns false; emitting nothing more is the
vacuous second branch. -/
theorem C9_emit_boundary_witness :
    (((['a', 'b'] : List Char).length < 1 + (['x', 'y', 'z'] : List Char).length →
      Emit ⟨[], 0, [], 0, 0, defaultModes, ['a', 'b'], 1, false⟩ ['x', 'y', 'z']
        = (false, ⟨[], 0, [], 0, 0, defaultModes, ['a', 'x'], 2, true⟩) ∧
      GetIoStat (Emit ⟨[], 0, [], 0, 0, defaultModes, ['a', 'b'], 1, false⟩
        ['x', 'y', 'z']).2 ≠ 0) ∧
    (1 + (['x', 'y', 'z'] : List Char).length ≤ (['a', 'b'] : List Char).length →
      Emit ⟨[], 0, [], 0, 0, defaultModes, ['a', 'b'], 1, false⟩ ['x', 'y', 'z']
        = (true, ⟨[], 0, [], 0, 0, defaultModes, ['a', 'x', 'y', 'z'], 4, false⟩))) :=
  C9_emit_boundary ⟨[], 0, [], 0, 0, defaultModes, ['a', 'b'], 1, false⟩ ['x', 'y', 'z']
    (by decide)

/-- C1 (code bug exhibit): running the whole statement for FORMAT `(I5)`
with -42 on a 5-character buffer leaves the buffer entirely blank and the
`OutputInteger64` call returns false: the source emits the two padding
blanks and then returns without ever emitting the sign and digits, so the
field is not the right-justified `"  -42"` the claim (and the spec's
scenario 2) describes. -/
theorem C1_underwidth_field_eval :
    RunInternalOutput 64 5 "(I5)" [-42] = some (Except.ok ([false], 0, "     ")) ∧
    "     " ≠ "  -42" := by
  constructor
  · rfl
  · decide

/-- C2: the repository's own test scenario: FORMAT
`(12HHELLO, WORLD,2X,I3,1X,'0x',Z8)` with 678 and 0xFEEDFACE into a
32-character buffer produces the prefix `HELLO, WORLD  678 0xFEEDFACE`
with the remaining four positions holding spaces, both output calls
return true, and `EndIoStatement` returns status 0. -/
theorem C2_internal_output_hello_world :
    RunInternalOutput 64 32 "(12HHELLO, WORLD,2X,I3,1X,'0x',Z8)" [678, 0xFEEDFACE]
      = some (Except.ok ([true, true], 0, "HELLO, WORLD  678 0xFEEDFACE    ")) := by
  rfl

/-- C4 (code bug exhibit): two-letter control edit descriptors are not
consumed as a whole.  For FORMAT `(SP,I4)` with 12 the buffer stays blank
instead of holding `" +12"`; the cued-up edit does carry the SP-set
signPlus mode, but the unconsumed `P` is re-read as a `kP` scale-factor
edit (the state's scale becomes 1), and `TLn` crashes because
`GetIntField` is called while the cursor still sits on the `L`. -/
theorem C4_control_edit_eval :
    RunInternalOutput 64 4 "(SP,I4)" [12] = some (Except.ok ([false], 0, "    ")) ∧
    GetNext 32
        ⟨String.data "(SP,I4)", 0, [], 3, 0, defaultModes, List.replicate 4 ' ', 0, false⟩ 1
      = some (Except.ok
          ({ descriptor := 'I', variation := nul, width := 4, digits := none,
             expoDigits := none, repeatCount := 1,
             modes := { roundingMode := RoundingMode.tiesToEven, blankZero := false,
                        decimalComma := false, signPlus := true } },
           { format := String.data "(SP,I4)", offset := 6,
             stack := [{ start := 0, remaining := -1 }], maxHeight := 3, scale := 1,
             modes := { roundingMode := RoundingMode.tiesToEven, blankZero := false,
                        decimalComma := false, signPlus := true },
             internal := List.replicate 4 ' ', at_ := 0, eor := false })) ∧
    RunInternalOutput 64 8 "(TL4,I2)" [5]
      = some (Except.error "Invalid FORMAT: integer expected") := by
  refine ⟨?_, ?_, ?_⟩ <;> rfl

/-- C10: for the most negative 64-bit integer the magnitude is obtained by
conversion to an unsigned 64-bit value, so the digit strings under the
integer descriptors are those of `2 ^ 63` (19 decimal digits
`9223372036854775808`, hexadecimal `8000000000000000`, a one followed by
63 binary zeroes, octal `1000000000000000000000`), and whole-statement
runs under `I20` and `Z16` produce the full fields. -/
theorem C10_min_int64_digits :
    IntEditUn (-9223372036854775808) = 2 ^ 63 ∧
    DecimalDigits (IntEditUn (-9223372036854775808)) (IntEditUn (-9223372036854775808))
      = String.data "9223372036854775808" ∧
    HexDigits (IntEditUn (-9223372036854775808)) (IntEditUn (-9223372036854775808))
      = String.data "8000000000000000" ∧
    BinaryDigits (IntEditUn (-9223372036854775808)) (IntEditUn (-9223372036854775808))
      = '1' :: List.replicate 63 '0' ∧
    OctalDigits (IntEditUn (-9223372036854775808)) (IntEditUn (-9223372036854775808))
      = String.data "1000000000000000000000" ∧
    RunInternalOutput 64 20 "(I20)" [-9223372036854775808]
      = some (Except.ok ([true], 0, "-9223372036854775808")) ∧
    RunInternalOutput 64 16 "(Z16)" [-9223372036854775808]
      = some (Except.ok ([true], 0, "8000000000000000")) := by
  refine ⟨?_, ?_, ?_, ?_, ?_, ?_, ?_⟩ <;> rfl

theorem beginUnlimited :
    BeginInternalFormattedOutput 8 UnlimitedLoopFormat = Except.ok UnlimitedLoopBegin := rfl

/-- One iteration of the walk from the cycling state of
`UnlimitedLoopFormat` reproduces the same state: the inner right
parenthesis is consumed, the cursor jumps back to `start + 1 = 3`, and the
comparison `offset == unlimitedLoopCheck` compares 3 with 2 (the offset of
the inner left parenthesis), so the diagnostic branch is never taken. -/
theorem cueUpUnlimitedCycle (k : Nat) (stop : Bool) :
    CueUpNextDataEdit (k + 1) UnlimitedLoopState stop 2
      = CueUpNextDataEdit k UnlimitedLoopState stop 2 := by
  cases stop <;> rfl

theorem cueUpUnlimitedNone (k : Nat) (stop : Bool) :
    CueUpNextDataEdit k UnlimitedLoopState stop 2 = none := by
  induction k with
  | zero => rfl
  | succ k ih =>
    rw [cueUpUnlimitedCycle k stop]
    exact ih

theorem cueUpUnlimitedPrefix (k : Nat) (stop : Bool) :
    CueUpNextDataEdit (k + 2) UnlimitedLoopBegin stop (-1)
      = CueUpNextDataEdit k UnlimitedLoopState stop 2 := by
  cases stop <;> rfl

/-- C5 (code bug exhibit): over the FORMAT `(*())`, whose unlimited group
contains no data edit descriptors, the walk never terminates and never
produces the promised diagnostic: for every fuel bound, both a
`GetNext`-driven walk and the `EndIoStatement` stop-walk from the
statement's begin state run out of fuel (`none`), because the
`unlimitedLoopCheck` sentinel stores the offset of the group's `(` but is
compared against the post-jump offset one past it, so it can never fire. -/
theorem C5_unlimited_loop_walk_diverges : ∀ fuel : Nat,
    (BeginInternalFormattedOutput 8 UnlimitedLoopFormat).map
      (fun s0 => (GetNext fuel s0 1, EndIoStatement fuel s0)) = Except.ok (none, none) := by
  intro fuel
  rw [beginUnlimited]
  have hcue : ∀ stop, CueUpNextDataEdit fuel UnlimitedLoopBegin stop (-1) = none := by
    intro stop
    match fuel with
    | 0 => cases stop <;> rfl
    | 1 => cases stop <;> rfl
    | (k + 2) =>
      rw [cueUpUnlimitedPrefix k stop]
      exact cueUpUnlimitedNone k stop
  have h1 : GetNext fuel UnlimitedLoopBegin 1 = none := by
    simp only [GetNext, hcue false]
  have h2 : EndIoStatement fuel UnlimitedLoopBegin = none := by
    simp only [EndIoStatement, FinishOutput, hcue true]
  simp only [Except.map, h1, h2]

/-! ### The character-level interface used by the walk invariant (C6) -/

theorem char_le_iff (a b : Char) : a ≤ b ↔ a.toNat ≤ b.toNat := Iff.rfl

theorem char_eq_iff (a b : Char) : a = b ↔ a.toNat = b.toNat :=
  ⟨fun h => by rw [h],
   fun h => le_antisymm ((char_le_iff a b).2 h.le) ((char_le_iff b a).2 h.ge)⟩

theorem char_toNat_ofNat (n : Nat) (h : n < 55296) : (Char.ofNat n).toNat = n := by
  have hv : n.isValidChar := Or.inl h
  rw [Char.ofNat, dif_pos hv]
  rfl

/-- `Capitalize` either fixes its argument or maps a lower-case letter
(code 97–122) 32 code points down. -/
theorem Capitalize_cases (c : Char) :
    Capitalize c = c ∨
      (97 ≤ c.toNat ∧ c.toNat ≤ 122 ∧ (Capitalize c).toNat = c.toNat - 32) := by
  unfold Capitalize
  by_cases h : 'a' ≤ c ∧ c ≤ 'z'
  · right
    rw [if_pos h]
    obtain ⟨h1, h2⟩ := h
    rw [char_le_iff] at h1 h2
    have ha : ('a').toNat = 97 := rfl
    have hz : ('z').toNat = 122 := rfl
    rw [ha] at h1; rw [hz] at h2
    exact ⟨h1, h2, char_toNat_ofNat _ (by omega)⟩
  · left; rw [if_neg h]

/-- A `Capitalize` image outside the upper-case letters is a fixed point:
the character was the image itself. -/
theorem Capitalize_nonletter (c t : Char) (h : Capitalize c = t)
    (ht : t.toNat < 65 ∨ 90 < t.toNat) : c = t := by
  rcases Capitalize_cases c with hc | ⟨h1, h2, h3⟩
  · rw [← hc, h]
  · rw [h] at h3
    rw [char_eq_iff]
    omega

theorem isDigitChar_toNat (c : Char) :
    isDigitChar c ↔ 48 ≤ c.toNat ∧ c.toNat ≤ 57 := by
  unfold isDigitChar
  rw [char_le_iff, char_le_iff]
  have h0 : ('0').toNat = 48 := rfl
  have h9 : ('9').toNat = 57 := rfl
  rw [h0, h9]

/-! ### The validator scan: basic lemmas -/

theorem scanAt_succ (F : List Char) (p : Nat) (h : p < F.length) :
    scanAt F (p + 1) = scanStep (scanAt F p) (F.getD p nul) := by
  unfold scanAt
  rw [List.take_succ, List.foldl_append]
  have h1 : F[p]? = some F[p] := List.getElem?_eq_getElem h
  rw [h1]
  have h2 : F.getD p nul = F[p] := by
    rw [List.getD_eq_getElem?_getD, h1]; rfl
  rw [h2]
  rfl

theorem scanStep_maxDepth_le (st : ScanState) (c : Char) :
    st.maxDepth ≤ (scanStep st c).maxDepth := by
  rcases st with ⟨m, pd, d, md⟩
  cases m <;> cases pd <;> unfold scanStep <;> simp only <;> split_ifs <;> simp

theorem scanStep_depth_le (st : ScanState) (c : Char) (h : st.depth ≤ st.maxDepth) :
    (scanStep st c).depth ≤ (scanStep st c).maxDepth := by
  rcases st with ⟨m, pd, d, md⟩
  simp only at h
  cases m <;> cases pd <;> unfold scanStep <;> simp only <;> split_ifs <;> simp <;> omega

theorem foldl_maxDepth_le (l : List Char) : ∀ st : ScanState,
    st.maxDepth ≤ (l.foldl scanStep st).maxDepth := by
  induction l with
  | nil => intro st; simp
  | cons c t ih =>
    intro st
    calc st.maxDepth ≤ (scanStep st c).maxDepth := scanStep_maxDepth_le st c
      _ ≤ _ := by rw [List.foldl_cons]; exact ih _

theorem foldl_depth_le (l : List Char) : ∀ st : ScanState,
    st.depth ≤ st.maxDepth → (l.foldl scanStep st).depth ≤ (l.foldl scanStep st).maxDepth := by
  induction l with
  | nil => intro st h; simpa using h
  | cons c t ih =>
    intro st h
    rw [List.foldl_cons]
    exact ih _ (scanStep_depth_le st c h)

theorem scanAt_depth_le (F : List Char) (p : Nat) :
    (scanAt F p).depth ≤ (scanAt F p).maxDepth :=
  foldl_depth_le _ _ (by simp [initScan])

theorem scanAt_maxDepth_le (F : List Char) (p : Nat) :
    (scanAt F p).maxDepth ≤ maxNesting F := by
  unfold maxNesting scanFormat
  conv_rhs => rw [← List.take_append_drop p F]
  rw [List.foldl_append]
  exact foldl_maxDepth_le _ _

theorem scanAt_depth_le_maxNesting (F : List Char) (p : Nat) :
    (scanAt F p).depth ≤ maxNesting F :=
  le_trans (scanAt_depth_le F p) (scanAt_maxDepth_le F p)

theorem maxNesting_nonneg (F : List Char) : 0 ≤ maxNesting F := by
  have h := foldl_maxDepth_le F initScan
  simpa [maxNesting, scanFormat, initScan] using h

/-! ### One-character steps of the validator scan, by character class -/

theorem scanStep_normal_open (st : ScanState) (h : st.mode = ScanMode.normal) :
    scanStep st '(' =
      { st with
        depth := st.depth + 1,
        maxDepth := max st.maxDepth (st.depth + 1),
        pending := none } := by
  simp [scanStep, h]

theorem scanStep_normal_close (st : ScanState) (h : st.mode = ScanMode.normal) :
    scanStep st ')' = { st with depth := st.depth - 1, pending := none } := by
  simp [scanStep, h]

theorem scanStep_normal_quote (st : ScanState) (c : Char) (h : st.mode = ScanMode.normal)
    (hc : c = quoteS ∨ c = quoteD) :
    scanStep st c = { st with mode := ScanMode.literal c, pending := none } := by
  have h1 : c ≠ '(' := by
    rcases hc with hc | hc <;> subst hc <;> rw [Ne, char_eq_iff] <;> decide
  have h2 : c ≠ ')' := by
    rcases hc with hc | hc <;> subst hc <;> rw [Ne, char_eq_iff] <;> decide
  simp only [scanStep, h, if_neg h1, if_neg h2, if_pos hc]

theorem scanStep_normal_digit (st : ScanState) (c : Char) (h : st.mode = ScanMode.normal)
    (hc : isDigitChar c) :
    scanStep st c =
      { st with pending := some ((st.pending.getD 0) * 10 + ((c.toNat : Int) - 48)) } := by
  rw [isDigitChar_toNat] at hc
  have h1 : c ≠ '(' := by rw [Ne, char_eq_iff]; have : ('(').toNat = 40 := rfl; omega
  have h2 : c ≠ ')' := by rw [Ne, char_eq_iff]; have : (')').toNat = 41 := rfl; omega
  have h3 : ¬(c = quoteS ∨ c = quoteD) := by
    rw [char_eq_iff, char_eq_iff]
    have hq1 : quoteS.toNat = 39 := rfl
    have hq2 : quoteD.toNat = 34 := rfl
    omega
  simp only [scanStep, h, if_neg h1, if_neg h2, if_neg h3,
    if_pos ((isDigitChar_toNat c).2 hc)]

theorem scanStep_normal_other (st : ScanState) (c : Char) (h : st.mode = ScanMode.normal)
    (h1 : c ≠ '(') (h2 : c ≠ ')') (h3 : ¬(c = quoteS ∨ c = quoteD)) (h4 : ¬isDigitChar c)
    (h5 : ¬(c = 'H' ∨ c = 'h')) :
    scanStep st c = { st with pending := none } := by
  simp only [scanStep, h, if_neg h1, if_neg h2, if_neg h3, if_neg h4, if_neg h5]

theorem scanStep_normal_H (st : ScanState) (c : Char) (r : Int)
    (h : st.mode = ScanMode.normal) (hc : c = 'H' ∨ c = 'h')
    (hp : st.pending = some r) (hr : 1 ≤ r) :
    scanStep st c = { st with mode := ScanMode.hollerith r.toNat, pending := none } := by
  have h1 : c ≠ '(' := by
    rcases hc with hc | hc <;> subst hc <;> rw [Ne, char_eq_iff] <;> decide
  have h2 : c ≠ ')' := by
    rcases hc with hc | hc <;> subst hc <;> rw [Ne, char_eq_iff] <;> decide
  have h3 : ¬(c = quoteS ∨ c = quoteD) := by
    rintro (hq | hq) <;> rcases hc with hc | hc <;> subst hc <;>
      rw [char_eq_iff] at hq <;> revert hq <;> decide
  have h4 : ¬isDigitChar c := by
    rw [isDigitChar_toNat]
    rcases hc with hc | hc <;> subst hc <;> decide
  simp only [scanStep, h, if_neg h1, if_neg h2, if_neg h3, if_neg h4, if_pos hc, hp]
  rw [if_neg (by omega)]

theorem scanStep_lit_skip (st : ScanState) (q c : Char)
    (h : st.mode = ScanMode.literal q) (hc : c ≠ q) : scanStep st c = st := by
  simp only [scanStep, h, if_neg hc]

theorem scanStep_lit_close (st : ScanState) (q : Char) (h : st.mode = ScanMode.literal q) :
    scanStep st q = { st with mode := ScanMode.normal } := by
  simp [scanStep, h]

theorem scanStep_holl (st : ScanState) (k : Nat) (c : Char)
    (h : st.mode = ScanMode.hollerith k) :
    scanStep st c = if k ≤ 1 then { st with mode := ScanMode.normal }
      else { st with mode := ScanMode.hollerith (k - 1) } := by
  simp only [scanStep, h]

theorem CursorAt_step_other (F : List Char) (p d : Int) (hC : CursorAt F p d)
    (hp : p < (F.length : Int))
    (h1 : F.getD p.toNat nul ≠ '(') (h2 : F.getD p.toNat nul ≠ ')')
    (h3 : ¬(F.getD p.toNat nul = quoteS ∨ F.getD p.toNat nul = quoteD))
    (h4 : ¬isDigitChar (F.getD p.toNat nul))
    (h5 : ¬(F.getD p.toNat nul = 'H' ∨ F.getD p.toNat nul = 'h')) :
    CursorAt F (p + 1) d ∧ (scanAt F (p + 1).toNat).pending = none := by
  obtain ⟨h0, hle, hm, hd⟩ := hC
  have ht : (p + 1).toNat = p.toNat + 1 := by omega
  have hlt : p.toNat < F.length := by omega
  rw [CursorAt, ht, scanAt_succ F p.toNat hlt, scanStep_normal_other _ _ hm h1 h2 h3 h4 h5]
  exact ⟨⟨by omega, by omega, hm, hd⟩, rfl⟩

theorem CursorAt_step_digit (F : List Char) (p d : Int) (hC : CursorAt F p d)
    (hp : p < (F.length : Int)) (h4 : isDigitChar (F.getD p.toNat nul)) :
    CursorAt F (p + 1) d ∧ (scanAt F (p + 1).toNat).pending =
      some (((scanAt F p.toNat).pending.getD 0) * 10 +
        (((F.getD p.toNat nul).toNat : Int) - 48)) := by
  obtain ⟨h0, hle, hm, hd⟩ := hC
  have ht : (p + 1).toNat = p.toNat + 1 := by omega
  have hlt : p.toNat < F.length := by omega
  rw [CursorAt, ht, scanAt_succ F p.toNat hlt, scanStep_normal_digit _ _ hm h4]
  exact ⟨⟨by omega, by omega, hm, hd⟩, rfl⟩

theorem CursorAt_step_open (F : List Char) (p d : Int) (hC : CursorAt F p d)
    (hp : p < (F.length : Int)) (h1 : F.getD p.toNat nul = '(') :
    CursorAt F (p + 1) (d + 1) ∧ (scanAt F (p + 1).toNat).pending = none := by
  obtain ⟨h0, hle, hm, hd⟩ := hC
  have ht : (p + 1).toNat = p.toNat + 1 := by omega
  have hlt : p.toNat < F.length := by omega
  rw [CursorAt, ht, scanAt_succ F p.toNat hlt, h1, scanStep_normal_open _ hm]
  exact ⟨⟨by omega, by omega, hm, by rw [show ((scanAt F p.toNat).depth) = d from hd]⟩, rfl⟩

theorem CursorAt_step_close (F : List Char) (p d : Int) (hC : CursorAt F p d)
    (hp : p < (F.length : Int)) (h1 : F.getD p.toNat nul = ')') :
    CursorAt F (p + 1) (d - 1) ∧ (scanAt F (p + 1).toNat).pending = none := by
  obtain ⟨h0, hle, hm, hd⟩ := hC
  have ht : (p + 1).toNat = p.toNat + 1 := by omega
  have hlt : p.toNat < F.length := by omega
  rw [CursorAt, ht, scanAt_succ F p.toNat hlt, h1, scanStep_normal_close _ hm]
  exact ⟨⟨by omega, by omega, hm, by rw [show ((scanAt F p.toNat).depth) = d from hd]⟩, rfl⟩

theorem scan_step_quote (F : List Char) (p d : Int) (hC : CursorAt F p d)
    (hp : p < (F.length : Int))
    (h1 : F.getD p.toNat nul = quoteS ∨ F.getD p.toNat nul = quoteD) :
    (scanAt F (p + 1).toNat).mode = ScanMode.literal (F.getD p.toNat nul) ∧
      (scanAt F (p + 1).toNat).depth = d ∧ (scanAt F (p + 1).toNat).pending = none := by
  obtain ⟨h0, hle, hm, hd⟩ := hC
  have ht : (p + 1).toNat = p.toNat + 1 := by omega
  have hlt : p.toNat < F.length := by omega
  rw [ht, scanAt_succ F p.toNat hlt, scanStep_normal_quote _ _ hm h1]
  exact ⟨rfl, hd, rfl⟩

theorem scan_step_H (F : List Char) (p d : Int) (r : Int) (hC : CursorAt F p d)
    (hp : p < (F.length : Int))
    (h1 : F.getD p.toNat nul = 'H' ∨ F.getD p.toNat nul = 'h')
    (hpend : (scanAt F p.toNat).pending = some r) (hr : 1 ≤ r) :
    (scanAt F (p + 1).toNat).mode = ScanMode.hollerith r.toNat ∧
      (scanAt F (p + 1).toNat).depth = d ∧ (scanAt F (p + 1).toNat).pending = none := by
  obtain ⟨h0, hle, hm, hd⟩ := hC
  have ht : (p + 1).toNat = p.toNat + 1 := by omega
  have hlt : p.toNat < F.length := by omega
  rw [ht, scanAt_succ F p.toNat hlt, scanStep_normal_H _ _ r hm h1 hpend hr]
  exact ⟨rfl, hd, rfl⟩

theorem scan_holl_run (F : List Char) (d : Int) : ∀ (k : Nat) (p : Nat),
    1 ≤ k → p + k ≤ F.length →
    (scanAt F p).mode = ScanMode.hollerith k →
    (scanAt F p).pending = none → (scanAt F p).depth = d →
    (scanAt F (p + k)).mode = ScanMode.normal ∧
      (scanAt F (p + k)).pending = none ∧ (scanAt F (p + k)).depth = d := by
  intro k
  induction k with
  | zero => intro p h; omega
  | succ k ih =>
    intro p _ hlen hm hpend hd
    have hlt : p < F.length := by omega
    rcases Nat.eq_zero_or_pos k with hk | hk
    · subst hk
      rw [show p + 1 = p + 1 from rfl, scanAt_succ F p hlt, scanStep_holl _ _ _ hm,
        if_pos (by omega)]
      exact ⟨rfl, hpend, hd⟩
    · have hstep : scanAt F (p + 1) = { scanAt F p with mode := ScanMode.hollerith (k + 1 - 1) } := by
        rw [scanAt_succ F p hlt, scanStep_holl _ _ _ hm, if_neg (by omega)]
      have hres := ih (p + 1) hk (by omega)
        (by rw [hstep]
            show ScanMode.hollerith (k + 1 - 1) = ScanMode.hollerith k
            norm_num)
        (by rw [hstep]; exact hpend) (by rw [hstep]; exact hd)
      have harith : p + 1 + k = p + (k + 1) := by omega
      rw [harith] at hres
      exact hres

/-! ### The walk fields are untouched by the emission and position helpers -/

theorem Emit_walkOf (s : IoState) (data : List Char) : walkOf (Emit s data).2 = walkOf s := by
  unfold Emit SignalEor
  dsimp only
  split_ifs <;> rfl

theorem EmitRepeated_walkOf (c : Char) : ∀ (k : Nat) (s : IoState),
    walkOf (EmitRepeated s c k).2 = walkOf s := by
  intro k
  induction k with
  | zero => intro s; rfl
  | succ k ih =>
    intro s
    rw [EmitRepeated]
    have hE := Emit_walkOf s [c]
    cases hEq : Emit s [c] with
    | mk b s1 =>
      rw [hEq] at hE
      cases b
      · exact hE
      · simp only []
        exact (ih s1).trans hE

theorem HandleAbsolutePosition_walkOf (s : IoState) (n : Int) :
    walkOf (HandleAbsolutePosition s n).2 = walkOf s := by
  unfold HandleAbsolutePosition SignalEor
  dsimp only
  split_ifs <;> rfl

theorem HandleRelativePosition_walkOf (s : IoState) (n : Int) :
    walkOf (HandleRelativePosition s n).2 = walkOf s := by
  unfold HandleRelativePosition SignalEor
  dsimp only
  split_ifs <;> rfl

theorem HandleControl_walkOf (s : IoState) (ch next : Char) (n : Int) (s₁ : IoState)
    (h : HandleControl s ch next n = Except.ok s₁) : walkOf s₁ = walkOf s := by
  unfold HandleControl at h
  by_cases h1 : ch = 'B' ∧ next = 'Z'
  · rw [if_pos h1] at h; injection h with h; subst h; rfl
  rw [if_neg h1] at h
  by_cases h2 : ch = 'B' ∧ next = 'N'
  · rw [if_pos h2] at h; injection h with h; subst h; rfl
  rw [if_neg h2] at h
  by_cases h3 : ch = 'D' ∧ next = 'C'
  · rw [if_pos h3] at h; injection h with h; subst h; rfl
  rw [if_neg h3] at h
  by_cases h4 : ch = 'D' ∧ next = 'P'
  · rw [if_pos h4] at h; injection h with h; subst h; rfl
  rw [if_neg h4] at h
  by_cases h5 : ch = 'P' ∧ next = nul
  · rw [if_pos h5] at h; injection h with h; subst h; rfl
  rw [if_neg h5] at h
  by_cases h6 : ch = 'R' ∧ next = 'N'
  · rw [if_pos h6] at h; injection h with h; subst h; rfl
  rw [if_neg h6] at h
  by_cases h7 : ch = 'R' ∧ next = 'Z'
  · rw [if_pos h7] at h; injection h with h; subst h; rfl
  rw [if_neg h7] at h
  by_cases h8 : ch = 'R' ∧ next = 'U'
  · rw [if_pos h8] at h; injection h with h; subst h; rfl
  rw [if_neg h8] at h
  by_cases h9 : ch = 'R' ∧ next = 'D'
  · rw [if_pos h9] at h; injection h with h; subst h; rfl
  rw [if_neg h9] at h
  by_cases h10 : ch = 'R' ∧ next = 'C'
  · rw [if_pos h10] at h; injection h with h; subst h; rfl
  rw [if_neg h10] at h
  by_cases h11 : ch = 'X' ∧ next = nul
  · rw [if_pos h11] at h; injection h with h; subst h
    exact HandleRelativePosition_walkOf s n
  rw [if_neg h11] at h
  by_cases h12 : ch = 'S' ∧ next = 'P'
  · rw [if_pos h12] at h; injection h with h; subst h; rfl
  rw [if_neg h12] at h
  by_cases h13 : ch = 'S' ∧ (next = nul ∨ next = 'S')
  · rw [if_pos h13] at h; injection h with h; subst h; rfl
  rw [if_neg h13] at h
  by_cases h14 : ch = 'T' ∧ next = nul
  · rw [if_pos h14] at h; injection h with h; subst h
    exact HandleAbsolutePosition_walkOf s n
  rw [if_neg h14] at h
  by_cases h15 : ch = 'T' ∧ (next = 'L' ∨ next = 'R')
  · rw [if_pos h15] at h; injection h with h; subst h
    exact HandleRelativePosition_walkOf s _
  rw [if_neg h15] at h
  exact Except.noConfusion h

theorem walkOf_parts (s s₁ : IoState) (h : walkOf s₁ = walkOf s) :
    s₁.format = s.format ∧ s₁.offset = s.offset ∧ s₁.stack = s.stack ∧
      s₁.maxHeight = s.maxHeight := by
  unfold walkOf at h
  simp only [Prod.mk.injEq] at h
  exact ⟨h.1, h.2.1, h.2.2.1, h.2.2.2⟩

theorem Inv_walkOf (s s₁ : IoState) (h : walkOf s₁ = walkOf s) (hI : Inv s) : Inv s₁ := by
  obtain ⟨h1, h2, h3, h4⟩ := walkOf_parts s s₁ h
  unfold Inv at hI ⊢
  rw [h1, h2, h3, h4]
  exact hI

/-! ### The invariant implies the claimed bounds -/

theorem Inv_WalkBounds (s : IoState) (hI : Inv s) : WalkBounds s := by
  obtain ⟨hmh, hshape⟩ := hI
  have hmn := maxNesting_nonneg s.format
  rcases hshape with ⟨hps, hC, hP⟩ | ⟨rf, rest, hstack, hrest, hnp, hps, hoff, hDE, hC⟩
  · obtain ⟨h0, hle, hm, hd⟩ := hC
    have hdep := scanAt_depth_le_maxNesting s.format s.offset.toNat
    rw [hd] at hdep
    refine ⟨h0, ?_, ?_⟩
    · exact hle
    · unfold IoState.height
      omega
  · obtain ⟨h0, hle, hm, hd⟩ := hC
    have hdep := scanAt_depth_le_maxNesting s.format rf.start.toNat
    rw [hd] at hdep
    rw [WalkBounds, hoff]
    refine ⟨h0, hle, ?_⟩
    unfold IoState.height
    rw [hstack]
    simp only [List.length_cons]
    push_cast
    omega

/-! ### Scan transport through the FORMAT-reading helpers -/

theorem getD_of_len_le (F : List Char) (n : Nat) (h : F.length ≤ n) :
    F.getD n nul = nul :=
  List.getD_eq_default F nul h

theorem nul_not_digit : ¬ isDigitChar nul := by decide

/-- `GetIntFieldLoop` with no pre-read character consumes the maximal digit
run at the cursor: it moves only the cursor, stays in plain scan mode at
the same depth, stops on a non-digit, accumulates monotonically, and lands
with the pending digit run of the scan equal to its own accumulator. -/
theorem GetIntFieldLoop_scan (d : Int) : ∀ (fuel : Nat) (s : IoState) (acc : Int),
    ((s.format.length : Int) - s.offset).toNat < fuel →
    CursorAt s.format s.offset d →
    (∃ e, GetIntFieldLoop fuel s nul acc = Except.error e) ∨
    (∃ r s₁, GetIntFieldLoop fuel s nul acc = Except.ok (r, s₁) ∧
      s₁ = { s with offset := s₁.offset } ∧ s.offset ≤ s₁.offset ∧
      CursorAt s.format s₁.offset d ∧
      ¬ isDigitChar (s.format.getD s₁.offset.toNat nul) ∧
      (0 ≤ acc → acc ≤ r) ∧
      ((scanAt s.format s.offset.toNat).pending = some acc →
        (scanAt s.format s₁.offset.toNat).pending = some r)) := by
  intro fuel
  induction fuel with
  | zero => intro s acc hfuel hC; omega
  | succ fuel ih =>
    intro s acc hfuel hC
    have hC0 := hC
    obtain ⟨h0, hle, hm, hdep⟩ := hC0
    rw [GetIntFieldLoop]
    simp only [ne_eq, not_true_eq_false, if_false, ite_false]
    by_cases hlt : s.offset < s.formatLength
    · have hpeek : PeekNext s = s.format.getD s.offset.toNat nul := by
        rw [PeekNext, if_pos hlt]
      rw [hpeek]
      by_cases hdig : isDigitChar (s.format.getD s.offset.toNat nul)
      · rw [if_pos hdig]
        by_cases hov : 214748364 - (((s.format.getD s.offset.toNat nul).toNat : Int) - 48) < acc
        · rw [if_pos hov]
          exact Or.inl ⟨_, rfl⟩
        · rw [if_neg hov]
          have hlt2 : s.offset < (s.format.length : Int) := hlt
          have hstep := CursorAt_step_digit s.format s.offset d hC hlt2 hdig
          obtain ⟨hC1, hpend1⟩ := hstep
          have hdig2 := (isDigitChar_toNat _).1 hdig
          have hres := ih { s with offset := s.offset + 1 }
            (10 * acc + (((s.format.getD s.offset.toNat nul).toNat : Int) - 48))
            (by simp only; omega) hC1
          rcases hres with ⟨e, he⟩ | ⟨r, s₁, heq, hfields, hmono, hC2, hnd, hacc, hpend⟩
          · exact Or.inl ⟨e, he⟩
          · refine Or.inr ⟨r, s₁, heq, hfields, by simp only at hmono; omega, hC2, hnd, ?_, ?_⟩
            · intro ha
              have := hacc (by omega)
              omega
            · intro hp
              apply hpend
              simp only
              rw [hpend1, hp]
              simp only [Option.getD_some]
              congr 1
              ring
      · rw [if_neg hdig]
        exact Or.inr ⟨acc, s, rfl, rfl, le_refl _, hC, hdig, fun _ => le_refl _, fun hp => hp⟩
    · have hpeek : PeekNext s = nul := by rw [PeekNext, if_neg hlt]
      rw [hpeek, if_neg nul_not_digit]
      have hge : s.format.length ≤ s.offset.toNat := by
        unfold IoState.formatLength at hlt
        omega
      refine Or.inr ⟨acc, s, rfl, rfl, le_refl _, hC, ?_, fun _ => le_refl _, fun hp => hp⟩
      rw [getD_of_len_le _ _ hge]
      exact nul_not_digit

/-- `GetIntField` with no pre-read character: on success it moves only the
cursor, forward, staying in plain scan mode at the same depth, and stops
on a non-digit. -/
theorem GetIntField_scan (d : Int) (s : IoState) (r : Int) (s₁ : IoState)
    (hC : CursorAt s.format s.offset d)
    (h : GetIntField s nul = Except.ok (r, s₁)) :
    s₁ = { s with offset := s₁.offset } ∧ s.offset ≤ s₁.offset ∧
      CursorAt s.format s₁.offset d ∧
      ¬ isDigitChar (s.format.getD s₁.offset.toNat nul) := by
  rw [GetIntField] at h
  simp only [ne_eq, not_true_eq_false, if_false, ite_false, ite_self] at h
  by_cases hcond : ¬PeekNext s = '-' ∧ ¬PeekNext s = '+' ∧ ¬isDigitChar (PeekNext s)
  · rw [if_pos hcond] at h
    exact Except.noConfusion h
  · rw [if_neg hcond] at h
    have hloop := GetIntFieldLoop_scan d ((s.formatLength - s.offset).toNat + 2) s 0
      (by unfold IoState.formatLength; omega) hC
    rcases hloop with ⟨e, he⟩ | ⟨r0, s₂, heq, hfields, hmono, hC2, hnd, _, _⟩
    · rw [he] at h
      exact Except.noConfusion h
    · rw [heq] at h
      simp only [] at h
      by_cases hneg : PeekNext s = '-' ∧ 0 < (if PeekNext s = '-' then -r0 else r0)
      · rw [if_pos hneg] at h
        exact Except.noConfusion h
      · rw [if_neg hneg] at h
        injection h with h
        injection h with h1 h2
        subst h2
        exact ⟨hfields, hmono, hC2, hnd⟩

/-- The comma/colon skip at the head of each `CueUpNextDataEdit` iteration:
`ch` stands for the character at `offset - 1`, already consumed.  The loop
consumes commas (and colons, when not stopping), keeping the scan in plain
mode at the same depth, and hands back a non-comma non-colon character with
no pending digit run unless that character is itself a non-digit. -/
theorem CommaSkipLoop_scan (d : Int) (stop : Bool) : ∀ (fuel : Nat) (ch : Char) (s : IoState),
    ((s.format.length : Int) - s.offset).toNat < fuel →
    1 ≤ s.offset → s.offset ≤ (s.format.length : Int) →
    ch = Capitalize (s.format.getD (s.offset - 1).toNat nul) →
    CursorAt s.format (s.offset - 1) d →
    ((scanAt s.format (s.offset - 1).toNat).pending = none ∨
      ¬ isDigitChar (s.format.getD (s.offset - 1).toNat nul)) →
    (∃ e, CommaSkipLoop fuel stop ch s = Except.error e) ∨
    (∃ s₁, CommaSkipLoop fuel stop ch s = Except.ok (none, s₁) ∧ stop = true ∧
      s₁ = { s with offset := s₁.offset } ∧ 1 ≤ s₁.offset ∧
      s₁.offset ≤ (s.format.length : Int) ∧ CursorAt s.format (s₁.offset - 1) d) ∨
    (∃ chB s₁, CommaSkipLoop fuel stop ch s = Except.ok (some chB, s₁) ∧
      s₁ = { s with offset := s₁.offset } ∧ 1 ≤ s₁.offset ∧
      s₁.offset ≤ (s.format.length : Int) ∧
      chB = Capitalize (s.format.getD (s₁.offset - 1).toNat nul) ∧
      ¬(chB = ',' ∨ chB = ':') ∧
      CursorAt s.format (s₁.offset - 1) d ∧
      ((scanAt s.format (s₁.offset - 1).toNat).pending = none ∨
        ¬ isDigitChar (s.format.getD (s₁.offset - 1).toNat nul))) := by
  intro fuel
  induction fuel with
  | zero => intro ch s hfuel; omega
  | succ fuel ih =>
    intro ch s hfuel h1 hlen hch hC hpend
    rw [CommaSkipLoop]
    by_cases hcc : ch = ',' ∨ ch = ':'
    · rw [if_pos hcc]
      by_cases hstop : stop ∧ ch = ':'
      · rw [if_pos hstop]
        exact Or.inr (Or.inl ⟨s, rfl, hstop.1, rfl, h1, hlen, hC⟩)
      · rw [if_neg hstop]
        by_cases hin : s.offset < s.formatLength
        · rw [GetNextChar, if_pos hin]
          have hraw : s.format.getD (s.offset - 1).toNat nul = ',' ∨
              s.format.getD (s.offset - 1).toNat nul = ':' := by
            rcases hcc with hc | hc
            · exact Or.inl (Capitalize_nonletter _ _ (hch.symm.trans hc) (by left; decide))
            · exact Or.inr (Capitalize_nonletter _ _ (hch.symm.trans hc) (by left; decide))
          have hp1 : s.offset - 1 < (s.format.length : Int) := by
            unfold IoState.formatLength at hin
            omega
          have hstep := CursorAt_step_other s.format (s.offset - 1) d hC hp1
            (by rcases hraw with hr | hr <;> rw [hr] <;> rw [Ne, char_eq_iff] <;> decide)
            (by rcases hraw with hr | hr <;> rw [hr] <;> rw [Ne, char_eq_iff] <;> decide)
            (by rcases hraw with hr | hr <;> rw [hr] <;>
              simp only [char_eq_iff] <;> decide)
            (by rcases hraw with hr | hr <;> rw [hr] <;> decide)
            (by rcases hraw with hr | hr <;> rw [hr] <;>
              simp only [char_eq_iff] <;> decide)
          have harith : s.offset - 1 + 1 = s.offset := by omega
          rw [harith] at hstep
          obtain ⟨hC1, hpend1⟩ := hstep
          have hres := ih (Capitalize (s.format.getD s.offset.toNat nul))
            { s with offset := s.offset + 1 }
            (by simp only; unfold IoState.formatLength at hin; omega)
            (by simp only; omega)
            (by simp only; unfold IoState.formatLength at hin; omega)
            (by simp only
                have : s.offset + 1 - 1 = s.offset := by omega
                rw [this])
            (by simp only
                have : s.offset + 1 - 1 = s.offset := by omega
                rw [this]
                exact hC1)
            (by simp only
                have : s.offset + 1 - 1 = s.offset := by omega
                rw [this]
                exact Or.inl hpend1)
          rcases hres with ⟨e, he⟩ | ⟨s₁, heq, hstp, hf, ho1, hol, hCx⟩ |
            ⟨chB, s₁, heq, hf, ho1, hol, hchB, hncc, hCx, hpx⟩
          · exact Or.inl ⟨e, he⟩
          · exact Or.inr (Or.inl ⟨s₁, heq, hstp, hf, ho1, hol, hCx⟩)
          · exact Or.inr (Or.inr ⟨chB, s₁, heq, hf, ho1, hol, hchB, hncc, hCx, hpx⟩)
        · rw [GetNextChar, if_neg hin]
          exact Or.inl ⟨_, rfl⟩
    · rw [if_neg hcc]
      refine Or.inr (Or.inr ⟨ch, s, rfl, rfl, h1, hlen, hch, hcc, hC, hpend⟩)

/-- `ScanToQuote` only advances the cursor, to the closing quote or to the
end of the FORMAT, keeping the scan inside the character literal. -/
theorem ScanToQuote_scan (d : Int) (q : Char) : ∀ (fuel : Nat) (s : IoState),
    ((s.format.length : Int) - s.offset).toNat < fuel →
    0 ≤ s.offset → s.offset ≤ (s.format.length : Int) →
    (scanAt s.format s.offset.toNat).mode = ScanMode.literal q →
    (scanAt s.format s.offset.toNat).pending = none →
    (scanAt s.format s.offset.toNat).depth = d →
    ScanToQuote fuel s q = { s with offset := (ScanToQuote fuel s q).offset } ∧
      s.offset ≤ (ScanToQuote fuel s q).offset ∧
      (ScanToQuote fuel s q).offset ≤ (s.format.length : Int) ∧
      ((ScanToQuote fuel s q).offset = (s.format.length : Int) ∨
        (s.format.getD (ScanToQuote fuel s q).offset.toNat nul = q ∧
          (scanAt s.format (ScanToQuote fuel s q).offset.toNat).mode = ScanMode.literal q ∧
          (scanAt s.format (ScanToQuote fuel s q).offset.toNat).pending = none ∧
          (scanAt s.format (ScanToQuote fuel s q).offset.toNat).depth = d)) := by
  intro fuel
  induction fuel with
  | zero => intro s hfuel; omega
  | succ fuel ih =>
    intro s hfuel h0 hlen hm hpend hd
    rw [ScanToQuote]
    by_cases hcond : s.offset < s.formatLength ∧ s.format.getD s.offset.toNat nul ≠ q
    · rw [if_pos hcond]
      obtain ⟨hin, hnq⟩ := hcond
      have hin2 : s.offset < (s.format.length : Int) := hin
      have ht : (s.offset + 1).toNat = s.offset.toNat + 1 := by omega
      have hlt : s.offset.toNat < s.format.length := by omega
      have hstep : scanAt s.format (s.offset + 1).toNat = scanAt s.format s.offset.toNat := by
        rw [ht, scanAt_succ _ _ hlt, scanStep_lit_skip _ q _ hm hnq]
      have hres := ih { s with offset := s.offset + 1 }
        (by simp only; omega) (by simp only; omega) (by simp only; omega)
        (by simp only; rw [hstep]; exact hm)
        (by simp only; rw [hstep]; exact hpend)
        (by simp only; rw [hstep]; exact hd)
      obtain ⟨hf, hmono, hub, hfin⟩ := hres
      refine ⟨hf, by simp only at hmono; omega, hub, hfin⟩
    · rw [if_neg hcond]
      refine ⟨rfl, le_refl _, hlen, ?_⟩
      by_cases hq : s.format.getD s.offset.toNat nul = q
      · exact Or.inr ⟨hq, hm, hpend, hd⟩
      · left
        rcases not_and_or.mp hcond with hc | hc
        · unfold IoState.formatLength at hc
          omega
        · exact absurd hq (by simpa using hc)

/-! ### The FORMAT-reading helpers never produce the stack-overflow text -/

theorem GetIntFieldLoop_error_ne : ∀ (fuel : Nat) (s : IoState) (c : Char) (acc : Int)
    (e : String), GetIntFieldLoop fuel s c acc = Except.error e →
    e ≠ "FORMAT stack overflow: too many nested parentheses" := by
  intro fuel
  induction fuel with
  | zero =>
    intro s c acc e h
    injection h with h
    subst h
    decide
  | succ fuel ih =>
    intro s c acc e h
    rw [GetIntFieldLoop] at h
    by_cases h1 : isDigitChar (if c ≠ nul then c else PeekNext s)
    · rw [if_pos h1] at h
      by_cases h2 : 214748364 - (((if c ≠ nul then c else PeekNext s).toNat : Int) - 48) < acc
      · rw [if_pos h2] at h
        injection h with h
        subst h
        decide
      · rw [if_neg h2] at h
        by_cases h3 : c ≠ nul
        · rw [if_pos h3] at h
          exact ih _ _ _ _ h
        · rw [if_neg h3] at h
          exact ih _ _ _ _ h
    · rw [if_neg h1] at h
      exact Except.noConfusion h

theorem GetIntField_error_ne (s : IoState) (c : Char) (e : String)
    (h : GetIntField s c = Except.error e) :
    e ≠ "FORMAT stack overflow: too many nested parentheses" := by
  rw [GetIntField] at h
  by_cases h1 : (if c ≠ nul then c else PeekNext s) ≠ '-' ∧
      (if c ≠ nul then c else PeekNext s) ≠ '+' ∧
      ¬isDigitChar (if c ≠ nul then c else PeekNext s)
  · rw [if_pos h1] at h
    injection h with h
    subst h
    decide
  · rw [if_neg h1] at h
    simp only [] at h
    cases hL : GetIntFieldLoop ((s.formatLength - s.offset).toNat + 2) s
        (if (if c ≠ nul then c else PeekNext s) = '-' then nul else c) 0 with
    | error e1 =>
      rw [hL] at h
      injection h with h
      subst h
      exact GetIntFieldLoop_error_ne _ _ _ _ _ hL
    | ok p =>
      rw [hL] at h
      simp only [] at h
      split_ifs at h
      all_goals
        first
          | exact Except.noConfusion h
          | (injection h with h; subst h; decide)

theorem CommaSkipLoop_error_ne : ∀ (fuel : Nat) (stop : Bool) (ch : Char) (s : IoState)
    (e : String), CommaSkipLoop fuel stop ch s = Except.error e →
    e ≠ "FORMAT stack overflow: too many nested parentheses" := by
  intro fuel
  induction fuel with
  | zero =>
    intro stop ch s e h
    injection h with h
    subst h
    decide
  | succ fuel ih =>
    intro stop ch s e h
    rw [CommaSkipLoop] at h
    by_cases h1 : ch = ',' ∨ ch = ':'
    · rw [if_pos h1] at h
      by_cases h2 : stop ∧ ch = ':'
      · rw [if_pos h2] at h
        exact Except.noConfusion h
      · rw [if_neg h2] at h
        rw [GetNextChar] at h
        by_cases h3 : s.offset < s.formatLength
        · rw [if_pos h3] at h
          exact ih _ _ _ _ h
        · rw [if_neg h3] at h
          injection h with h
          subst h
          decide
    · rw [if_neg h1] at h
      exact Except.noConfusion h

theorem HandleControl_error (s : IoState) (ch next : Char) (n : Int) (e : String)
    (h : HandleControl s ch next n = Except.error e) :
    e = "Unknown edit descriptor in FORMAT" := by
  unfold HandleControl at h
  by_cases h1 : ch = 'B' ∧ next = 'Z'
  · rw [if_pos h1] at h; exact Except.noConfusion h
  rw [if_neg h1] at h
  by_cases h2 : ch = 'B' ∧ next = 'N'
  · rw [if_pos h2] at h; exact Except.noConfusion h
  rw [if_neg h2] at h
  by_cases h3 : ch = 'D' ∧ next = 'C'
  · rw [if_pos h3] at h; exact Except.noConfusion h
  rw [if_neg h3] at h
  by_cases h4 : ch = 'D' ∧ next = 'P'
  · rw [if_pos h4] at h; exact Except.noConfusion h
  rw [if_neg h4] at h
  by_cases h5 : ch = 'P' ∧ next = nul
  · rw [if_pos h5] at h; exact Except.noConfusion h
  rw [if_neg h5] at h
  by_cases h6 : ch = 'R' ∧ next = 'N'
  · rw [if_pos h6] at h; exact Except.noConfusion h
  rw [if_neg h6] at h
  by_cases h7 : ch = 'R' ∧ next = 'Z'
  · rw [if_pos h7] at h; exact Except.noConfusion h
  rw [if_neg h7] at h
  by_cases h8 : ch = 'R' ∧ next = 'U'
  · rw [if_pos h8] at h; exact Except.noConfusion h
  rw [if_neg h8] at h
  by_cases h9 : ch = 'R' ∧ next = 'D'
  · rw [if_pos h9] at h; exact Except.noConfusion h
  rw [if_neg h9] at h
  by_cases h10 : ch = 'R' ∧ next = 'C'
  · rw [if_pos h10] at h; exact Except.noConfusion h
  rw [if_neg h10] at h
  by_cases h11 : ch = 'X' ∧ next = nul
  · rw [if_pos h11] at h; exact Except.noConfusion h
  rw [if_neg h11] at h
  by_cases h12 : ch = 'S' ∧ next = 'P'
  · rw [if_pos h12] at h; exact Except.noConfusion h
  rw [if_neg h12] at h
  by_cases h13 : ch = 'S' ∧ (next = nul ∨ next = 'S')
  · rw [if_pos h13] at h; exact Except.noConfusion h
  rw [if_neg h13] at h
  by_cases h14 : ch = 'T' ∧ next = nul
  · rw [if_pos h14] at h; exact Except.noConfusion h
  rw [if_neg h14] at h
  by_cases h15 : ch = 'T' ∧ (next = 'L' ∨ next = 'R')
  · rw [if_pos h15] at h; exact Except.noConfusion h
  rw [if_neg h15] at h
  injection h with h
  exact h.symm

/-! ### Character facts feeding the dispatch analysis -/

theorem Capitalize_eq_H (c : Char) (h : Capitalize c = 'H') : c = 'H' ∨ c = 'h' := by
  rcases Capitalize_cases c with hc | ⟨h1, h2, h3⟩
  · exact Or.inl (hc ▸ h)
  · right
    rw [h] at h3
    rw [char_eq_iff]
    have hh : ('h').toNat = 104 := rfl
    have hH : ('H').toNat = 72 := rfl
    omega

/-- The character underlying a dispatched upper-case letter other than `H`:
its `Capitalize` image is the letter, and it falls in none of the special
character classes of the validator scan. -/
theorem raw_letter_facts (c ch : Char) (hch : ch = Capitalize c ∨ ch = c)
    (hA : 'A' ≤ ch) (hZ : ch ≤ 'Z') (hne : ch ≠ 'H') :
    Capitalize c = ch ∧ c ≠ '(' ∧ c ≠ ')' ∧ ¬(c = quoteS ∨ c = quoteD) ∧
      ¬isDigitChar c ∧ ¬(c = 'H' ∨ c = 'h') := by
  rw [char_le_iff] at hA hZ
  have hAv : ('A').toNat = 65 := rfl
  have hZv : ('Z').toNat = 90 := rfl
  rw [hAv] at hA
  rw [hZv] at hZ
  have hneH : ch.toNat ≠ 72 := fun hc => hne ((char_eq_iff ch 'H').2 (by rw [hc]; rfl))
  have hrange : (c = ch ∨ c.toNat = ch.toNat + 32) ∧ Capitalize c = ch := by
    rcases hch with hcap | hraw
    · rcases Capitalize_cases c with hc | ⟨ha, hb, hv⟩
      · exact ⟨Or.inl (hcap.trans hc).symm, hcap.symm⟩
      · have hcn : ch.toNat = c.toNat - 32 := by rw [hcap, hv]
        exact ⟨Or.inr (by omega), hcap.symm⟩
    · rcases Capitalize_cases c with hc | ⟨ha, hb, hv⟩
      · exact ⟨Or.inl hraw.symm, hc.trans hraw.symm⟩
      · exfalso
        have hcn : ch.toNat = c.toNat := by rw [hraw]
        omega
  obtain ⟨hcv, hcap⟩ := hrange
  have hcn : c.toNat = ch.toNat ∨ c.toNat = ch.toNat + 32 := by
    rcases hcv with hc | hc
    · exact Or.inl (by rw [hc])
    · exact Or.inr hc
  refine ⟨hcap, ?_, ?_, ?_, ?_, ?_⟩
  · rw [Ne, char_eq_iff]
    have : ('(').toNat = 40 := rfl
    omega
  · rw [Ne, char_eq_iff]
    have : (')').toNat = 41 := rfl
    omega
  · rw [char_eq_iff, char_eq_iff]
    have hq1 : quoteS.toNat = 39 := rfl
    have hq2 : quoteD.toNat = 34 := rfl
    omega
  · rw [isDigitChar_toNat]
    omega
  · rw [char_eq_iff, char_eq_iff]
    have hh : ('h').toNat = 104 := rfl
    have hH : ('H').toNat = 72 := rfl
    omega

theorem raw_of_nonletter (c ch t : Char) (hch : ch = Capitalize c ∨ ch = c)
    (h : ch = t) (ht : t.toNat < 65 ∨ 90 < t.toNat) : c = t := by
  rcases hch with hc | hc
  · exact Capitalize_nonletter c t (hc.symm.trans h) ht
  · exact hc.symm.trans h

theorem getD_ne_nul_lt (F : List Char) (p : Int) (c : Char) (h0 : 0 ≤ p)
    (hraw : F.getD p.toNat nul = c) (hc : c.toNat ≠ 0) : p < (F.length : Int) := by
  by_contra hcon
  push_neg at hcon
  rw [getD_of_len_le _ _ (by omega)] at hraw
  exact hc (by rw [← hraw]; rfl)

theorem CueUpPost_none (stop : Bool) : CueUpPost stop none := trivial

theorem CueUpPost_error (stop : Bool) (e : String)
    (h : e ≠ "FORMAT stack overflow: too many nested parentheses") :
    CueUpPost stop (some (Except.error e)) := h

theorem CueUpPost_ok (stop : Bool) (rpt : Int) (t : IoState) (hb : WalkBounds t)
    (hs : stop = false → rpt ≠ 0)
    (hi : rpt ≠ 0 → Inv t ∧ DataEditAt t.format t.offset ∧ 1 ≤ t.stack.length)
    (hp : 1 < rpt → ParenStack t.format t.stack ∧
      CursorAt t.format t.offset (t.stack.length : Int)) :
    CueUpPost stop (some (Except.ok (rpt, t))) := ⟨hb, hs, hi, hp⟩

/-- `GetIntField` invoked by `CueUpNextDataEdit` on a just-consumed sign or
digit character: on success it moves only the cursor, forward, staying in
plain scan mode at the same depth, and a positive result is exactly the
pending digit run the validator scan holds where the cursor stops (a
result read from a sign is never positive). -/
theorem GetIntField_first_scan (d : Int) (s : IoState) (c : Char) (r : Int) (s₁ : IoState)
    (hC : CursorAt s.format s.offset d)
    (hpend0 : isDigitChar c →
      (scanAt s.format s.offset.toNat).pending = some ((c.toNat : Int) - 48))
    (h : GetIntField s c = Except.ok (r, s₁))
    (hcnd : c = '-' ∨ c = '+' ∨ isDigitChar c) :
    s₁ = { s with offset := s₁.offset } ∧ s.offset ≤ s₁.offset ∧
      CursorAt s.format s₁.offset d ∧
      (1 ≤ r → (scanAt s.format s₁.offset.toNat).pending = some r ∧
        ¬ isDigitChar (s.format.getD s₁.offset.toNat nul)) := by
  rw [GetIntField] at h
  rcases hcnd with hcm | hcp | hdg
  · subst hcm
    rw [if_pos (by decide : ('-' : Char) ≠ nul)] at h
    rw [if_neg (fun hcon => hcon.1 rfl)] at h
    simp only [] at h
    rw [if_pos (trivial : True)] at h
    have hloop := GetIntFieldLoop_scan d ((s.formatLength - s.offset).toNat + 2) s 0
      (by unfold IoState.formatLength; omega) hC
    rcases hloop with ⟨e, he⟩ | ⟨r0, s₂, heq, hfields, hmono, hC2, hnd, hacc, _⟩
    · rw [he] at h
      exact Except.noConfusion h
    · rw [heq] at h
      simp only [] at h
      rw [if_pos (trivial : True)] at h
      have hr0 : 0 ≤ r0 := hacc (le_refl 0)
      rw [if_neg (fun hcon => absurd hcon.2 (by omega) : ¬(True ∧ 0 < -r0))] at h
      injection h with h
      injection h with h1 h2
      subst h2
      subst h1
      exact ⟨hfields, hmono, hC2, fun hr1 => absurd hr1 (by omega)⟩
  · subst hcp
    rw [if_pos (by decide : ('+' : Char) ≠ nul)] at h
    rw [if_neg (fun hcon => hcon.2.1 rfl)] at h
    simp only [] at h
    rw [if_neg (by decide : ¬(('+' : Char) = '-'))] at h
    rw [GetIntFieldLoop] at h
    rw [if_pos (by decide : ('+' : Char) ≠ nul)] at h
    simp only [] at h
    rw [if_neg (by decide : ¬ isDigitChar '+')] at h
    simp only [] at h
    rw [if_neg (by decide : ¬(('+' : Char) = '-'))] at h
    rw [if_neg (by decide : ¬(('+' : Char) = '-' ∧ 0 < (0 : Int)))] at h
    injection h with h
    injection h with h1 h2
    subst h2
    subst h1
    exact ⟨rfl, le_refl _, hC, fun hr1 => absurd hr1 (by omega)⟩
  · have hcne : c ≠ nul := by
      rw [isDigitChar_toNat] at hdg
      rw [Ne, char_eq_iff]
      have hnl : nul.toNat = 0 := rfl
      omega
    have hcnm : ¬(c = '-') := by
      rw [isDigitChar_toNat] at hdg
      rw [char_eq_iff]
      have hmv : ('-').toNat = 45 := rfl
      omega
    rw [if_pos hcne] at h
    rw [if_neg (fun hcon => hcon.2.2 hdg)] at h
    simp only [] at h
    rw [if_neg hcnm] at h
    rw [GetIntFieldLoop] at h
    rw [if_pos hcne] at h
    simp only [] at h
    rw [if_pos hdg] at h
    by_cases hov : 214748364 - ((c.toNat : Int) - 48) < 0
    · rw [if_pos hov] at h
      exact Except.noConfusion h
    · rw [if_neg hov] at h
      rw [if_pos hcne] at h
      have hloop := GetIntFieldLoop_scan d ((s.formatLength - s.offset).toNat + 1) s
        (10 * 0 + ((c.toNat : Int) - 48))
        (by unfold IoState.formatLength; omega) hC
      rcases hloop with ⟨e, he⟩ | ⟨r0, s₂, heq, hfields, hmono, hC2, hnd, hacc, hpd⟩
      · rw [he] at h
        exact Except.noConfusion h
      · rw [heq] at h
        simp only [] at h
        rw [if_neg hcnm, if_neg (fun hcon => hcnm hcon.1)] at h
        injection h with h
        injection h with h1 h2
        subst h2
        subst h1
        refine ⟨hfields, hmono, hC2, fun _ => ⟨?_, hnd⟩⟩
        apply hpd
        rw [hpend0 hdg]
        congr 1
        ring

theorem CursorAt_cast (F : List Char) (p a b : Int) (h : CursorAt F p a) (he : a = b) :
    CursorAt F p b := he ▸ h

theorem cast_length_cons (a : Iteration) (l : List Iteration) :
    (((a :: l).length : Nat) : Int) = (l.length : Int) + 1 := by
  rw [List.length_cons]
  push_cast
  ring

/-- The dispatch tail of `CueUpNextDataEdit` preserves the walk invariant:
whatever branch the decisive character selects, a normal return is in
bounds (and, unless stopping, re-establishes the invariant with the cursor
on a data edit descriptor), an error is never the stack-overflow
diagnostic, and every continuation state satisfies the invariant again. -/
theorem CueUpDispatch_inv (next : IoState → Int → Option (Except String (Int × IoState)))
    (stop : Bool) (ulc : Int) (sD : IoState) (rpt : Option Int) (uf : Bool) (ch : Char)
    (hnext : ∀ (t : IoState) (ulc1 : Int), Inv t → CueUpPost stop (next t ulc1))
    (hmh : sD.maxHeight = maxNesting sD.format + 2)
    (hps : ParenStack sD.format sD.stack)
    (h1 : 1 ≤ sD.offset) (hlen : sD.offset ≤ (sD.format.length : Int))
    (hC : CursorAt sD.format (sD.offset - 1) (sD.stack.length : Int))
    (hch : ch = Capitalize (sD.format.getD (sD.offset - 1).toNat nul) ∨
           ch = sD.format.getD (sD.offset - 1).toNat nul)
    (hH : ∀ r, rpt = some r → 1 ≤ r →
      (scanAt sD.format (sD.offset - 1).toNat).pending = some r) :
    CueUpPost stop (CueUpDispatch next sD stop ulc rpt uf ch) := by
  have hmn := maxNesting_nonneg sD.format
  have hCc := hC
  obtain ⟨hc0, hcle, hcm, hcd⟩ := hCc
  have hdmax := scanAt_depth_le_maxNesting sD.format (sD.offset - 1).toNat
  rw [hcd] at hdmax
  have harr : sD.offset - 1 + 1 = sD.offset := by omega
  unfold CueUpDispatch
  dsimp only
  by_cases hpar : ch = '('
  · rw [if_pos hpar]
    have hraw : sD.format.getD (sD.offset - 1).toNat nul = '(' :=
      raw_of_nonletter _ _ _ hch hpar (by left; decide)
    have hguard : ¬(sD.maxHeight ≤ sD.height) := by
      unfold IoState.height
      omega
    rw [if_neg hguard]
    apply hnext
    have hplt : sD.offset - 1 < (sD.format.length : Int) :=
      getD_ne_nul_lt _ _ _ (by omega) hraw (by decide)
    obtain ⟨hCn, hpn⟩ := CursorAt_step_open sD.format (sD.offset - 1) _ hC hplt hraw
    rw [harr] at hCn hpn
    refine ⟨hmh, Or.inl ⟨⟨⟨by dsimp only; omega, hplt, hraw, hcm, hcd⟩, hps⟩, ?_, Or.inl hpn⟩⟩
    exact CursorAt_cast _ _ _ _ hCn (by rw [cast_length_cons])
  rw [if_neg hpar]
  by_cases hh0 : sD.height = 0
  · rw [if_pos hh0]
    exact CueUpPost_error _ _ (by decide)
  rw [if_neg hh0]
  by_cases hcl : ch = ')'
  · rw [if_pos hcl]
    have hraw : sD.format.getD (sD.offset - 1).toNat nul = ')' :=
      raw_of_nonletter _ _ _ hch hcl (by left; decide)
    by_cases h11 : sD.height = 1 ∧ ¬stop
    · rw [if_pos h11]
      exact CueUpPost_error _ _ (by decide)
    rw [if_neg h11]
    by_cases h12 : sD.height = 1 ∧ stop
    · rw [if_pos h12]
      obtain ⟨hh1, hstp⟩ := h12
      refine CueUpPost_ok _ _ _ ⟨by omega, hlen, by omega⟩ ?_ (fun hz => absurd rfl hz)
        (fun hgt => absurd hgt (by omega))
      intro hst
      rw [hst] at hstp
      exact absurd hstp (by decide)
    rw [if_neg h12]
    have hne1 : ¬(sD.height = 1) := by
      intro hhh
      cases stop with
      | false => exact h11 ⟨hhh, by simp⟩
      | true => exact h12 ⟨hhh, rfl⟩
    have hge2 : 2 ≤ sD.stack.length := by
      unfold IoState.height at hh0 hne1
      omega
    have hps0 := hps
    cases hstk : sD.stack with
    | nil =>
      rw [hstk] at hge2
      simp at hge2
    | cons fr rest =>
      rw [hstk] at hps0 hge2
      obtain ⟨hpf, hpsr⟩ := hps0
      obtain ⟨hf0, hflt, hfget, hfm, hfd⟩ := hpf
      have hrest1 : 1 ≤ rest.length := by
        simp only [List.length_cons] at hge2
        omega
      have hdcons : ((sD.stack.length : Nat) : Int) = (rest.length : Int) + 1 := by
        rw [hstk, cast_length_cons]
      simp only [List.headD_cons, List.tail_cons]
      by_cases hun : fr.remaining = unlimited
      · rw [if_pos hun]
        by_cases hulc : fr.start + 1 = ulc
        · rw [if_pos hulc]
          exact CueUpPost_error _ _ (by decide)
        · rw [if_neg hulc]
          apply hnext
          obtain ⟨hCo, hpo⟩ := CursorAt_step_open sD.format fr.start (rest.length : Int)
            ⟨hf0, by omega, hfm, hfd⟩ hflt hfget
          refine ⟨hmh, Or.inl ⟨?_, ?_, Or.inl hpo⟩⟩
          · show ParenStack sD.format (fr :: rest)
            exact ⟨⟨hf0, hflt, hfget, hfm, hfd⟩, hpsr⟩
          · exact CursorAt_cast _ _ _ _ hCo (by rw [cast_length_cons])
      · rw [if_neg hun]
        by_cases hpos : 0 < fr.remaining
        · rw [if_pos hpos]
          apply hnext
          obtain ⟨hCo, hpo⟩ := CursorAt_step_open sD.format fr.start (rest.length : Int)
            ⟨hf0, by omega, hfm, hfd⟩ hflt hfget
          refine ⟨hmh, Or.inl ⟨?_, ?_, Or.inl hpo⟩⟩
          · show ParenStack sD.format ({ fr with remaining := fr.remaining - 1 } :: rest)
            exact ⟨⟨hf0, hflt, hfget, hfm, hfd⟩, hpsr⟩
          · exact CursorAt_cast _ _ _ _ hCo (by rw [cast_length_cons])
        · rw [if_neg hpos]
          apply hnext
          have hplt : sD.offset - 1 < (sD.format.length : Int) :=
            getD_ne_nul_lt _ _ _ (by omega) hraw (by decide)
          obtain ⟨hCcl, hpcl⟩ := CursorAt_step_close sD.format (sD.offset - 1) _ hC hplt hraw
          rw [harr] at hCcl hpcl
          refine ⟨hmh, Or.inl ⟨hpsr, ?_, Or.inl hpcl⟩⟩
          exact CursorAt_cast _ _ _ _ hCcl (by rw [hdcons]; ring)
  rw [if_neg hcl]
  by_cases hq : ch = quoteS ∨ ch = quoteD
  · rw [if_pos hq]
    have hraw : sD.format.getD (sD.offset - 1).toNat nul = ch := by
      rcases hq with hqq | hqq <;> rw [hqq] <;>
        exact raw_of_nonletter _ _ _ hch hqq (by left; decide)
    have hplt : sD.offset - 1 < (sD.format.length : Int) := by
      refine getD_ne_nul_lt _ _ _ (by omega) hraw ?_
      rcases hq with hqq | hqq <;> rw [hqq] <;> decide
    obtain ⟨hlm, hld, hlp⟩ := scan_step_quote sD.format (sD.offset - 1) _ hC hplt
      (by rw [hraw]; exact hq)
    rw [harr] at hlm hld hlp
    rw [hraw] at hlm
    have hfacts := ScanToQuote_scan (sD.stack.length : Int) ch
      ((sD.formatLength - sD.offset).toNat + 1) sD
      (by show ((sD.format.length : Int) - sD.offset).toNat <
            ((sD.format.length : Int) - sD.offset).toNat + 1
          omega)
      (by omega) hlen hlm hlp hld
    set t := ScanToQuote ((sD.formatLength - sD.offset).toNat + 1) sD ch with ht
    obtain ⟨hft, hmono, hub, hdisj⟩ := hfacts
    have htf : t.format = sD.format := by rw [hft]
    by_cases hend : t.formatLength ≤ t.offset
    · rw [if_pos hend]
      exact CueUpPost_error _ _ (by decide)
    · rw [if_neg hend]
      unfold IoState.formatLength at hend
      rw [htf] at hend
      push_neg at hend
      have hqt : sD.format.getD t.offset.toNat nul = ch ∧
          (scanAt sD.format t.offset.toNat).mode = ScanMode.literal ch ∧
          (scanAt sD.format t.offset.toNat).pending = none ∧
          (scanAt sD.format t.offset.toNat).depth = (sD.stack.length : Int) := by
        rcases hdisj with hd1 | hd2
        · omega
        · exact hd2
      obtain ⟨hqget, hqm, hqp, hqd⟩ := hqt
      have ht0 : 0 ≤ t.offset := by omega
      have htt : (t.offset + 1).toNat = t.offset.toNat + 1 := by omega
      have htlt : t.offset.toNat < sD.format.length := by omega
      have hcls : scanAt sD.format (t.offset + 1).toNat =
          { scanAt sD.format t.offset.toNat with mode := ScanMode.normal } := by
        rw [htt, scanAt_succ _ _ htlt, hqget, scanStep_lit_close _ ch hqm]
      have hs2 : ({ t with offset := t.offset + 1 } : IoState) =
          { sD with offset := t.offset + 1 } := by rw [hft]
      rw [hs2]
      apply hnext
      apply Inv_walkOf _ _ (Emit_walkOf _ _)
      refine ⟨hmh, Or.inl ⟨hps, ⟨?_, ?_, ?_, ?_⟩, Or.inl ?_⟩⟩
      · show (0 : Int) ≤ t.offset + 1
        omega
      · show t.offset + 1 ≤ (sD.format.length : Int)
        omega
      · show (scanAt sD.format (t.offset + 1).toNat).mode = ScanMode.normal
        rw [hcls]
      · show (scanAt sD.format (t.offset + 1).toNat).depth = _
        rw [hcls]
        exact hqd
      · show (scanAt sD.format (t.offset + 1).toNat).pending = none
        rw [hcls]
        exact hqp
  rw [if_neg hq]
  by_cases hHc : ch = 'H'
  · rw [if_pos hHc]
    cases rpt with
    | none => exact CueUpPost_error _ _ (by decide)
    | some r =>
      dsimp only
      by_cases hrg : r < 1 ∨ sD.formatLength < sD.offset + r
      · rw [if_pos hrg]
        exact CueUpPost_error _ _ (by decide)
      · rw [if_neg hrg]
        push_neg at hrg
        obtain ⟨hr1, hrfit⟩ := hrg
        unfold IoState.formatLength at hrfit
        have hrawH : sD.format.getD (sD.offset - 1).toNat nul = 'H' ∨
            sD.format.getD (sD.offset - 1).toNat nul = 'h' := by
          rcases hch with hc | hc
          · exact Capitalize_eq_H _ (hc.symm.trans hHc)
          · exact Or.inl (hc.symm.trans hHc)
        have hpr := hH r rfl hr1
        obtain ⟨hhm, hhd, hhp⟩ := scan_step_H sD.format (sD.offset - 1) _ r hC
          (by rcases hrawH with hr | hr
              · exact getD_ne_nul_lt _ _ _ (by omega) hr (by decide)
              · exact getD_ne_nul_lt _ _ _ (by omega) hr (by decide))
          hrawH hpr hr1
        rw [harr] at hhm hhd hhp
        have hrun := scan_holl_run sD.format (sD.stack.length : Int) r.toNat sD.offset.toNat
          (by omega) (by omega) hhm hhp hhd
        obtain ⟨hrm, hrp, hrd⟩ := hrun
        obtain ⟨hef, heo, hes, hem⟩ := walkOf_parts sD (Emit sD
          ((sD.format.drop sD.offset.toNat).take r.toNat)).2 (Emit_walkOf _ _)
        apply hnext
        have htoff : ((Emit sD ((sD.format.drop sD.offset.toNat).take r.toNat)).2.offset
            + r).toNat = sD.offset.toNat + r.toNat := by
          rw [heo]
          omega
        refine ⟨?_, Or.inl ⟨?_, ⟨?_, ?_, ?_, ?_⟩, Or.inl ?_⟩⟩
        · show (Emit _ _).2.maxHeight = maxNesting (Emit _ _).2.format + 2
          rw [hem, hef]
          exact hmh
        · show ParenStack (Emit _ _).2.format (Emit _ _).2.stack
          rw [hef, hes]
          exact hps
        · show (0 : Int) ≤ (Emit _ _).2.offset + r
          rw [heo]
          omega
        · show (Emit _ _).2.offset + r ≤ ((Emit _ _).2.format.length : Int)
          rw [heo, hef]
          omega
        · show (scanAt (Emit _ _).2.format ((Emit _ _).2.offset + r).toNat).mode =
            ScanMode.normal
          rw [hef, htoff]
          exact hrm
        · show (scanAt (Emit _ _).2.format ((Emit _ _).2.offset + r).toNat).depth = _
          rw [hef, htoff, hrd, hes]
        · show (scanAt (Emit _ _).2.format ((Emit _ _).2.offset + r).toNat).pending = none
          rw [hef, htoff]
          exact hrp
  rw [if_neg hHc]
  by_cases hAZ : 'A' ≤ ch ∧ ch ≤ 'Z'
  · rw [if_pos hAZ]
    obtain ⟨hA, hZ⟩ := hAZ
    rcases raw_letter_facts _ ch hch hA hZ hHc with ⟨hcap, hr1, hr2, hr3, hr4, hr5⟩
    have hplt2 : sD.offset - 1 < (sD.format.length : Int) := by
      by_contra hcon
      push_neg at hcon
      rw [getD_of_len_le _ _ (by omega)] at hcap
      rw [(by decide : Capitalize nul = nul)] at hcap
      have hA2 := hA
      rw [char_le_iff] at hA2
      rw [← hcap] at hA2
      exact absurd hA2 (by decide)
    obtain ⟨hCn, hpn⟩ := CursorAt_step_other sD.format (sD.offset - 1) _ hC hplt2
      hr1 hr2 hr3 hr4 hr5
    rw [harr] at hCn hpn
    by_cases hTest : ch = 'E' ∨
        ((if Capitalize (PeekNext sD) < 'A' ∨ 'Z' < Capitalize (PeekNext sD) then nul
          else Capitalize (PeekNext sD)) = nul ∧
          (ch = 'A' ∨ ch = 'I' ∨ ch = 'B' ∨ ch = 'O' ∨ ch = 'Z' ∨
            ch = 'F' ∨ ch = 'D' ∨ ch = 'G'))
    · rw [if_pos hTest]
      have hwb : WalkBounds { sD with offset := sD.offset - 1 } := by
        refine ⟨?_, ?_, ?_⟩
        · show (0 : Int) ≤ sD.offset - 1
          omega
        · show sD.offset - 1 ≤ (sD.format.length : Int)
          omega
        · show ((sD.stack.length : Nat) : Int) ≤ sD.maxHeight - 1
          omega
      have hde : DataEditAt sD.format (sD.offset - 1) := by
        refine ⟨by omega, hplt2, ?_⟩
        dsimp only
        rw [harr, hcap]
        exact hTest
      have hlen1 : 1 ≤ sD.stack.length := by
        unfold IoState.height at hh0
        rcases Nat.eq_zero_or_pos sD.stack.length with hz | hp
        · exact absurd (by rw [hz]; rfl) hh0
        · exact hp
      refine CueUpPost_ok _ _ _ hwb ?_
        (fun _ => ⟨⟨hmh, Or.inl ⟨hps, hC, Or.inr hr4⟩⟩, hde, hlen1⟩) (fun _ => ⟨hps, hC⟩)
      intro _
      cases rpt with
      | none => norm_num
      | some r =>
        dsimp only
        split_ifs <;> omega
    · rw [if_neg hTest]
      by_cases hT : ch = 'T'
      · rw [if_pos hT]
        cases hGIF : GetIntField sD nul with
        | error e =>
          exact CueUpPost_error _ _ (GetIntField_error_ne _ _ _ hGIF)
        | ok p =>
          obtain ⟨r1, s1⟩ := p
          dsimp only
          obtain ⟨hfq, hmono, hC2, hnd⟩ := GetIntField_scan _ sD r1 s1 hCn hGIF
          cases hHC : HandleControl s1 ch
              (if Capitalize (PeekNext sD) < 'A' ∨ 'Z' < Capitalize (PeekNext sD) then nul
                else Capitalize (PeekNext sD))
              (if 0 < r1 then r1 else 1) with
          | error e =>
            exact CueUpPost_error _ _ (by rw [HandleControl_error _ _ _ _ _ hHC]; decide)
          | ok s2 =>
            apply hnext
            apply Inv_walkOf _ _ (HandleControl_walkOf _ _ _ _ _ hHC)
            refine ⟨?_, Or.inl ⟨?_, ?_, ?_⟩⟩
            · show s1.maxHeight = maxNesting s1.format + 2
              rw [hfq]
              exact hmh
            · show ParenStack s1.format s1.stack
              rw [hfq]
              exact hps
            · show CursorAt s1.format s1.offset (s1.stack.length : Int)
              rw [hfq]
              exact hC2
            · show PendingOk s1.format s1.offset
              rw [hfq]
              exact Or.inr hnd
      · rw [if_neg hT]
        cases rpt with
        | none =>
          dsimp only
          cases hHC : HandleControl sD ch
              (if Capitalize (PeekNext sD) < 'A' ∨ 'Z' < Capitalize (PeekNext sD) then nul
                else Capitalize (PeekNext sD)) 1 with
          | error e =>
            exact CueUpPost_error _ _ (by rw [HandleControl_error _ _ _ _ _ hHC]; decide)
          | ok s2 =>
            apply hnext
            apply Inv_walkOf _ _ (HandleControl_walkOf _ _ _ _ _ hHC)
            exact ⟨hmh, Or.inl ⟨hps, hCn, Or.inl hpn⟩⟩
        | some r0 =>
          dsimp only
          cases hHC : HandleControl sD ch
              (if Capitalize (PeekNext sD) < 'A' ∨ 'Z' < Capitalize (PeekNext sD) then nul
                else Capitalize (PeekNext sD))
              (if 0 < r0 then r0 else 1) with
          | error e =>
            exact CueUpPost_error _ _ (by rw [HandleControl_error _ _ _ _ _ hHC]; decide)
          | ok s2 =>
            apply hnext
            apply Inv_walkOf _ _ (HandleControl_walkOf _ _ _ _ _ hHC)
            exact ⟨hmh, Or.inl ⟨hps, hCn, Or.inl hpn⟩⟩
  rw [if_neg hAZ]
  by_cases hsl : ch = '/'
  · rw [if_pos hsl]
    show CueUpPost stop
      (some (Except.error "A / control edit descriptor may not appear in this FORMAT string"))
    exact CueUpPost_error _ _ (by decide)
  · rw [if_neg hsl]
    exact CueUpPost_error _ _ (by decide)



/-- `CueUpNextDataEdit` launched from a state satisfying the walk
invariant only ever delivers results allowed by `CueUpPost`: fuel
exhaustion, an error other than the stack-overflow diagnostic, a stopping
return in bounds, or a data edit descriptor with the invariant restored. -/
theorem CueUpNextDataEdit_inv : ∀ (fuel : Nat) (s : IoState) (stop : Bool) (ulc : Int),
    Inv s → CueUpPost stop (CueUpNextDataEdit fuel s stop ulc) := by
  intro fuel
  induction fuel with
  | zero =>
    intro s stop ulc _
    exact CueUpPost_none stop
  | succ fuel ih =>
    intro s stop ulc hI
    obtain ⟨hmh, hshape⟩ := hI
    have hmn := maxNesting_nonneg s.format
    rw [CueUpNextDataEdit]
    unfold GetNextChar
    dsimp only [IoState.formatLength]
    rcases hshape with ⟨hps, hC, hP⟩ | ⟨rf, rest, hstk, hrest, hnp, hpsr, hoff, hDE, hCr⟩
    · -- the cursor is between edit descriptors over a parenthesized stack
      have hC0 := hC
      obtain ⟨h0, hle, hm, hd⟩ := hC0
      have hdm := scanAt_depth_le_maxNesting s.format s.offset.toNat
      rw [hd] at hdm
      by_cases hin : s.offset < (s.format.length : Int)
      case neg =>
        rw [if_neg hin]
        exact CueUpPost_error _ _ (by decide)
      rw [if_pos hin]
      dsimp only
      have hCS := CommaSkipLoop_scan (s.stack.length : Int) stop
        (((s.format.length : Int) - (s.offset + 1)).toNat + 2)
        (Capitalize (s.format.getD s.offset.toNat nul))
        { s with offset := s.offset + 1 }
        (by dsimp only; omega)
        (by dsimp only; omega)
        (by dsimp only; omega)
        (by dsimp only
            rw [show s.offset + 1 - 1 = s.offset from by omega])
        (by dsimp only
            rw [show s.offset + 1 - 1 = s.offset from by omega]
            exact hC)
        (by dsimp only
            rw [show s.offset + 1 - 1 = s.offset from by omega]
            exact hP)
      rcases hCS with ⟨e, heq⟩ | ⟨s₁, heq, hstp, hf, ho1, hol, hCx⟩ |
        ⟨chB, s₁, heq, hf, ho1, hol, hchB, hncc, hCx, hpx⟩
      · rw [heq]
        exact CueUpPost_error _ _ (CommaSkipLoop_error_ne _ _ _ _ _ heq)
      · rw [heq]
        dsimp only at ho1 hol hCx
        refine CueUpPost_ok _ _ _ ?_ (fun hst => absurd hstp (by rw [hst]; decide))
          (fun hz => absurd rfl hz) (fun hgt => absurd hgt (by omega))
        have hs1f : s₁.format = s.format := by rw [hf]
        have hs1s : s₁.stack = s.stack := by rw [hf]
        have hs1m : s₁.maxHeight = s.maxHeight := by rw [hf]
        obtain ⟨hx0, hxle, hxm, hxd⟩ := hCx
        have hdm2 := scanAt_depth_le_maxNesting s.format (s₁.offset - 1).toNat
        rw [hxd] at hdm2
        refine ⟨by omega, ?_, ?_⟩
        · show s₁.offset ≤ (s₁.format.length : Int)
          rw [hs1f]
          omega
        · show ((s₁.stack.length : Nat) : Int) ≤ s₁.maxHeight - 1
          rw [hs1s, hs1m]
          omega
      · rw [heq]
        dsimp only
        dsimp only at ho1 hol hchB hCx hpx
        have hs1f : s₁.format = s.format := by rw [hf]
        have hs1s : s₁.stack = s.stack := by rw [hf]
        have hs1m : s₁.maxHeight = s.maxHeight := by rw [hf]
        have harr1 : s₁.offset - 1 + 1 = s₁.offset := by omega
        have hxlt : s₁.offset - 1 < (s.format.length : Int) := by omega
        by_cases hcls : chB = '-' ∨ chB = '+' ∨ isDigitChar chB
        · rw [if_pos hcls]
          have hstep : CursorAt s.format s₁.offset (s.stack.length : Int) ∧
              (isDigitChar chB →
                (scanAt s.format s₁.offset.toNat).pending = some ((chB.toNat : Int) - 48)) := by
            rcases hcls with hsm | hsp | hdg
            · have hraw : s.format.getD (s₁.offset - 1).toNat nul = '-' :=
                Capitalize_nonletter _ _ (hchB.symm.trans hsm) (by left; decide)
              obtain ⟨hCs, _⟩ := CursorAt_step_other s.format (s₁.offset - 1) _ hCx hxlt
                (by rw [hraw]; decide) (by rw [hraw]; decide) (by rw [hraw]; decide)
                (by rw [hraw]; decide) (by rw [hraw]; decide)
              rw [harr1] at hCs
              exact ⟨hCs, fun hdg2 => absurd (hsm ▸ hdg2) (by decide)⟩
            · have hraw : s.format.getD (s₁.offset - 1).toNat nul = '+' :=
                Capitalize_nonletter _ _ (hchB.symm.trans hsp) (by left; decide)
              obtain ⟨hCs, _⟩ := CursorAt_step_other s.format (s₁.offset - 1) _ hCx hxlt
                (by rw [hraw]; decide) (by rw [hraw]; decide) (by rw [hraw]; decide)
                (by rw [hraw]; decide) (by rw [hraw]; decide)
              rw [harr1] at hCs
              exact ⟨hCs, fun hdg2 => absurd (hsp ▸ hdg2) (by decide)⟩
            · have hraw : s.format.getD (s₁.offset - 1).toNat nul = chB :=
                Capitalize_nonletter _ _ hchB.symm
                  (by rw [isDigitChar_toNat] at hdg; left; omega)
              have hpx2 : (scanAt s.format (s₁.offset - 1).toNat).pending = none := by
                rcases hpx with hpn | hnd2
                · exact hpn
                · exact absurd (by rw [hraw]; exact hdg :
                    isDigitChar (s.format.getD (s₁.offset - 1).toNat nul)) hnd2
              obtain ⟨hCs, hpns⟩ := CursorAt_step_digit s.format (s₁.offset - 1) _ hCx hxlt
                (by rw [hraw]; exact hdg)
              rw [harr1] at hCs hpns
              refine ⟨hCs, fun _ => ?_⟩
              rw [hpns, hpx2, hraw]
              simp only [Option.getD_none]
              congr 1
              ring
          obtain ⟨hCq, hpd0⟩ := hstep
          rw [← hs1f] at hCq hpd0
          cases hGI : GetIntField s₁ chB with
          | error e =>
            exact CueUpPost_error _ _ (GetIntField_error_ne _ _ _ hGI)
          | ok p =>
            obtain ⟨r, s₂⟩ := p
            dsimp only
            obtain ⟨hfq2, hmono2, hC3, himp⟩ :=
              GetIntField_first_scan _ s₁ chB r s₂ hCq hpd0 hGI hcls
            rw [hs1f] at hC3 himp
            have hs2s : s₂ = { s with offset := s₂.offset } := by rw [hfq2, hf]
            have hs2f : s₂.format = s.format := by rw [hs2s]
            have hs2st : s₂.stack = s.stack := by rw [hs2s]
            have hs2m : s₂.maxHeight = s.maxHeight := by rw [hs2s]
            by_cases hin2 : s₂.offset < (s₂.format.length : Int)
            · rw [if_pos hin2]
              dsimp only
              have hin2g : s₂.offset < (s.format.length : Int) := by
                rw [← hs2f]
                exact hin2
              refine CueUpDispatch_inv _ stop ulc _ _ _ _
                (fun t u hInv => ih t stop u hInv) ?_ ?_ ?_ ?_ ?_ ?_ ?_
              · show s₂.maxHeight = maxNesting s₂.format + 2
                rw [hs2m, hs2f]
                exact hmh
              · show ParenStack s₂.format s₂.stack
                rw [hs2f, hs2st]
                exact hps
              · show (1 : Int) ≤ s₂.offset + 1
                omega
              · show s₂.offset + 1 ≤ (s₂.format.length : Int)
                rw [hs2f]
                omega
              · show CursorAt s₂.format (s₂.offset + 1 - 1) ((s₂.stack.length : Nat) : Int)
                rw [show s₂.offset + 1 - 1 = s₂.offset from by omega, hs2f, hs2st]
                exact hC3
              · right
                show s₂.format.getD s₂.offset.toNat nul =
                  s₂.format.getD (s₂.offset + 1 - 1).toNat nul
                rw [show s₂.offset + 1 - 1 = s₂.offset from by omega]
              · intro r2 hsome hr2
                injection hsome with hr2e
                subst hr2e
                show (scanAt s₂.format (s₂.offset + 1 - 1).toNat).pending = some r
                rw [show s₂.offset + 1 - 1 = s₂.offset from by omega, hs2f]
                exact (himp hr2).1
            · rw [if_neg hin2]
              exact CueUpPost_error _ _ (by decide)
        · rw [if_neg hcls]
          by_cases hstar : chB = '*'
          · rw [if_pos hstar]
            have hraw : s.format.getD (s₁.offset - 1).toNat nul = '*' :=
              Capitalize_nonletter _ _ (hchB.symm.trans hstar) (by left; decide)
            obtain ⟨hCs, hpns⟩ := CursorAt_step_other s.format (s₁.offset - 1) _ hCx hxlt
              (by rw [hraw]; decide) (by rw [hraw]; decide) (by rw [hraw]; decide)
              (by rw [hraw]; decide) (by rw [hraw]; decide)
            rw [harr1] at hCs hpns
            by_cases hin2 : s₁.offset < (s₁.format.length : Int)
            · rw [if_pos hin2]
              dsimp only
              have hin2g : s₁.offset < (s.format.length : Int) := by
                rw [← hs1f]
                exact hin2
              by_cases hlp2 : s₁.format.getD s₁.offset.toNat nul ≠ '('
              · rw [if_pos hlp2]
                exact CueUpPost_error _ _ (by decide)
              · rw [if_neg hlp2]
                dsimp only
                refine CueUpDispatch_inv _ stop ulc _ _ _ _
                  (fun t u hInv => ih t stop u hInv) ?_ ?_ ?_ ?_ ?_ ?_ ?_
                · show s₁.maxHeight = maxNesting s₁.format + 2
                  rw [hs1m, hs1f]
                  exact hmh
                · show ParenStack s₁.format s₁.stack
                  rw [hs1f, hs1s]
                  exact hps
                · show (1 : Int) ≤ s₁.offset + 1
                  omega
                · show s₁.offset + 1 ≤ (s₁.format.length : Int)
                  rw [hs1f]
                  omega
                · show CursorAt s₁.format (s₁.offset + 1 - 1) ((s₁.stack.length : Nat) : Int)
                  rw [show s₁.offset + 1 - 1 = s₁.offset from by omega, hs1f, hs1s]
                  exact hCs
                · right
                  show s₁.format.getD s₁.offset.toNat nul =
                    s₁.format.getD (s₁.offset + 1 - 1).toNat nul
                  rw [show s₁.offset + 1 - 1 = s₁.offset from by omega]
                · intro r2 hsome hr2
                  exact Option.noConfusion hsome
            · rw [if_neg hin2]
              exact CueUpPost_error _ _ (by decide)
          · rw [if_neg hstar]
            dsimp only
            refine CueUpDispatch_inv _ stop ulc _ _ _ _
              (fun t u hInv => ih t stop u hInv) ?_ ?_ ?_ ?_ ?_ ?_ ?_
            · show s₁.maxHeight = maxNesting s₁.format + 2
              rw [hs1m, hs1f]
              exact hmh
            · show ParenStack s₁.format s₁.stack
              rw [hs1f, hs1s]
              exact hps
            · exact ho1
            · show s₁.offset ≤ (s₁.format.length : Int)
              rw [hs1f]
              exact hol
            · show CursorAt s₁.format (s₁.offset - 1) ((s₁.stack.length : Nat) : Int)
              rw [hs1f, hs1s]
              exact hCx
            · left
              show chB = Capitalize (s₁.format.getD (s₁.offset - 1).toNat nul)
              rw [hs1f]
              exact hchB
            · intro r2 hsome hr2
              exact Option.noConfusion hsome
    · -- the cursor is pinned to a repeated data edit descriptor
      obtain ⟨hde0, hdelt, hcond3⟩ := hDE
      dsimp only at hcond3
      have hCr0 := hCr
      obtain ⟨hr0, hrle, hrmode, hrdep⟩ := hCr0
      have hdm3 := scanAt_depth_le_maxNesting s.format rf.start.toNat
      rw [hrdep] at hdm3
      have hfacts : ('A' ≤ Capitalize (s.format.getD rf.start.toNat nul) ∧
            Capitalize (s.format.getD rf.start.toNat nul) ≤ 'Z') ∧
          Capitalize (s.format.getD rf.start.toNat nul) ≠ 'H' ∧
          ¬(Capitalize (s.format.getD rf.start.toNat nul) = ',' ∨
            Capitalize (s.format.getD rf.start.toNat nul) = ':') ∧
          ¬(Capitalize (s.format.getD rf.start.toNat nul) = '-' ∨
            Capitalize (s.format.getD rf.start.toNat nul) = '+' ∨
            isDigitChar (Capitalize (s.format.getD rf.start.toNat nul))) ∧
          Capitalize (s.format.getD rf.start.toNat nul) ≠ '*' ∧
          Capitalize (s.format.getD rf.start.toNat nul) ≠ '(' ∧
          Capitalize (s.format.getD rf.start.toNat nul) ≠ ')' ∧
          ¬(Capitalize (s.format.getD rf.start.toNat nul) = quoteS ∨
            Capitalize (s.format.getD rf.start.toNat nul) = quoteD) := by
        rcases hcond3 with h | ⟨hnx, h⟩
        · rw [h]; decide
        · rcases h with h|h|h|h|h|h|h|h <;> rw [h] <;> decide
      obtain ⟨hAZb, hHb, hccb, hclsb, hstarb, hparb, hclb, hqb⟩ := hfacts
      rw [hoff]
      rw [if_pos (show rf.start < (s.format.length : Int) from hdelt)]
      dsimp only
      rw [CommaSkipLoop]
      rw [if_neg hccb]
      dsimp only
      rw [if_neg hclsb]
      rw [if_neg hstarb]
      dsimp only
      unfold CueUpDispatch
      dsimp only
      rw [if_neg hparb]
      have hh0B : ¬(({ s with offset := rf.start + 1 } : IoState).height = 0) := by
        unfold IoState.height
        dsimp only
        rw [hstk, List.length_cons]
        push_cast
        omega
      rw [if_neg hh0B]
      rw [if_neg hclb]
      rw [if_neg hqb]
      rw [if_neg hHb]
      rw [if_pos hAZb]
      have hpk : PeekNext { s with offset := rf.start + 1 } =
          (if rf.start + 1 < (s.format.length : Int) then
            s.format.getD (rf.start + 1).toNat nul else nul) := rfl
      have hTestB : Capitalize (s.format.getD rf.start.toNat nul) = 'E' ∨
          ((if Capitalize (PeekNext { s with offset := rf.start + 1 }) < 'A' ∨
              'Z' < Capitalize (PeekNext { s with offset := rf.start + 1 }) then nul
            else Capitalize (PeekNext { s with offset := rf.start + 1 })) = nul ∧
            (Capitalize (s.format.getD rf.start.toNat nul) = 'A' ∨
             Capitalize (s.format.getD rf.start.toNat nul) = 'I' ∨
             Capitalize (s.format.getD rf.start.toNat nul) = 'B' ∨
             Capitalize (s.format.getD rf.start.toNat nul) = 'O' ∨
             Capitalize (s.format.getD rf.start.toNat nul) = 'Z' ∨
             Capitalize (s.format.getD rf.start.toNat nul) = 'F' ∨
             Capitalize (s.format.getD rf.start.toNat nul) = 'D' ∨
             Capitalize (s.format.getD rf.start.toNat nul) = 'G')) := by
        rw [hpk]
        exact hcond3
      rw [if_pos hTestB]
      rw [show rf.start + 1 - 1 = rf.start from by omega]
      refine CueUpPost_ok _ _ _ ⟨?_, ?_, ?_⟩ (fun _ => one_ne_zero) (fun _ => ⟨?_, ?_, ?_⟩)
        (fun hgt => absurd hgt (by omega))
      · show (0 : Int) ≤ rf.start
        omega
      · show rf.start ≤ (s.format.length : Int)
        omega
      · show ((s.stack.length : Nat) : Int) ≤ s.maxHeight - 1
        rw [hstk, List.length_cons]
        push_cast
        omega
      · exact ⟨hmh, Or.inr ⟨rf, rest, hstk, hrest, hnp, hpsr, rfl, ⟨hde0, hdelt, hcond3⟩, hCr⟩⟩
      · exact ⟨hde0, hdelt, hcond3⟩
      · show 1 ≤ s.stack.length
        rw [hstk, List.length_cons]
        omega

theorem scanStep_normal_nonspecial (st : ScanState) (c : Char)
    (h : st.mode = ScanMode.normal) (hpend : st.pending = none)
    (h1 : c ≠ '(') (h2 : c ≠ ')') (h3 : ¬(c = quoteS ∨ c = quoteD))
    (h4 : ¬isDigitChar c) :
    scanStep st c = { st with pending := none } := by
  by_cases h5 : c = 'H' ∨ c = 'h'
  · simp only [scanStep, h, if_neg h1, if_neg h2, if_neg h3, if_neg h4, if_pos h5, hpend]
  · exact scanStep_normal_other st c h h1 h2 h3 h4 h5

theorem CursorAt_step_nonspecial (F : List Char) (p d : Int) (hC : CursorAt F p d)
    (hp : p < (F.length : Int)) (hpend : (scanAt F p.toNat).pending = none)
    (h1 : F.getD p.toNat nul ≠ '(') (h2 : F.getD p.toNat nul ≠ ')')
    (h3 : ¬(F.getD p.toNat nul = quoteS ∨ F.getD p.toNat nul = quoteD))
    (h4 : ¬isDigitChar (F.getD p.toNat nul)) :
    CursorAt F (p + 1) d ∧ (scanAt F (p + 1).toNat).pending = none := by
  obtain ⟨h0, hle, hm, hd⟩ := hC
  have ht : (p + 1).toNat = p.toNat + 1 := by omega
  have hlt : p.toNat < F.length := by omega
  rw [CursorAt, ht, scanAt_succ F p.toNat hlt,
    scanStep_normal_nonspecial _ _ hm hpend h1 h2 h3 h4]
  exact ⟨⟨by omega, by omega, hm, hd⟩, rfl⟩

/-- The character underlying a folded upper-case letter, `H` allowed: it
falls in none of the decisive special character classes of the validator
scan other than, possibly, the Hollerith introducer. -/
theorem raw_letter_facts_weak (c ch : Char) (hch : ch = Capitalize c ∨ ch = c)
    (hA : 'A' ≤ ch) (hZ : ch ≤ 'Z') :
    c ≠ '(' ∧ c ≠ ')' ∧ ¬(c = quoteS ∨ c = quoteD) ∧ ¬isDigitChar c := by
  rw [char_le_iff] at hA hZ
  have hAv : ('A').toNat = 65 := rfl
  have hZv : ('Z').toNat = 90 := rfl
  rw [hAv] at hA
  rw [hZv] at hZ
  have hcn : c.toNat = ch.toNat ∨ c.toNat = ch.toNat + 32 := by
    rcases hch with hcap | hraw
    · rcases Capitalize_cases c with hc | ⟨ha, hb, hv⟩
      · left
        rw [hcap, hc]
      · right
        rw [hcap, hv]
        omega
    · left
      rw [hraw]
  refine ⟨?_, ?_, ?_, ?_⟩
  · rw [Ne, char_eq_iff]
    have : ('(').toNat = 40 := rfl
    omega
  · rw [Ne, char_eq_iff]
    have : (')').toNat = 41 := rfl
    omega
  · rw [char_eq_iff, char_eq_iff]
    have hq1 : quoteS.toNat = 39 := rfl
    have hq2 : quoteD.toNat = 34 := rfl
    omega
  · rw [isDigitChar_toNat]
    omega

/-- The folded character at a data-edit offset is one of the nine
descriptor letters, so it lies in `A..Z` and is not `H`. -/
theorem DataEditAt_letter (F : List Char) (p : Int) (h : DataEditAt F p) :
    'A' ≤ Capitalize (F.getD p.toNat nul) ∧ Capitalize (F.getD p.toNat nul) ≤ 'Z' ∧
      Capitalize (F.getD p.toNat nul) ≠ 'H' := by
  rcases h.2.2 with hE | ⟨_, hl⟩
  · rw [hE]
    exact ⟨by decide, by decide, by decide⟩
  · rcases hl with h1 | h1 | h1 | h1 | h1 | h1 | h1 | h1 <;>
      (rw [h1]; exact ⟨by decide, by decide, by decide⟩)

/-- The field-parsing tail of `GetNext` only advances the cursor, keeping
it in plain scan mode at the same depth, and leaves it on a non-digit. -/
theorem GetNextParseFields_scan (d : Int) (sW : IoState) (w : Int) (m : MutableModes)
    (dg eo : Option Int) (s5 : IoState)
    (hC : CursorAt sW.format sW.offset d)
    (h : GetNextParseFields sW = Except.ok (w, m, dg, eo, s5)) :
    s5 = { sW with offset := s5.offset } ∧ CursorAt sW.format s5.offset d ∧
      ¬ isDigitChar (sW.format.getD s5.offset.toNat nul) := by
  rw [GetNextParseFields] at h
  cases hW : GetIntField sW nul with
  | error e =>
    rw [hW] at h
    exact Except.noConfusion h
  | ok p =>
    obtain ⟨width, s2⟩ := p
    rw [hW] at h
    simp only [] at h
    obtain ⟨hf2, hm2, hC2, hnd2⟩ := GetIntField_scan d sW width s2 hC hW
    have hfmt2 : s2.format = sW.format := by rw [hf2]
    by_cases hdot : PeekNext s2 = '.'
    · rw [if_pos hdot] at h
      have hlt2 : s2.offset < s2.formatLength := by
        by_contra hcon
        rw [PeekNext, if_neg hcon] at hdot
        exact absurd hdot (by decide)
      have hraw2 : sW.format.getD s2.offset.toNat nul = '.' := by
        rw [PeekNext, if_pos hlt2, hfmt2] at hdot
        exact hdot
      have hlt2n : s2.offset < (sW.format.length : Int) := by
        have h' := hlt2
        unfold IoState.formatLength at h'
        rw [hfmt2] at h'
        exact h'
      obtain ⟨hC3, hpend3⟩ := CursorAt_step_other sW.format s2.offset d hC2 hlt2n
        (by rw [hraw2]; decide) (by rw [hraw2]; decide) (by rw [hraw2]; decide)
        (by rw [hraw2]; decide) (by rw [hraw2]; decide)
      cases hD : GetIntField { s2 with offset := s2.offset + 1 } nul with
      | error e =>
        rw [hD] at h
        exact Except.noConfusion h
      | ok q =>
        obtain ⟨digits, s3⟩ := q
        rw [hD] at h
        simp only [] at h
        have hCD : CursorAt ({ s2 with offset := s2.offset + 1 } : IoState).format
            ({ s2 with offset := s2.offset + 1 } : IoState).offset d := by
          have h' : CursorAt s2.format (s2.offset + 1) d := by
            rw [hfmt2]
            exact hC3
          exact h'
        obtain ⟨hf3, hm3, hC3x, hnd3x⟩ := GetIntField_scan d _ digits s3 hCD hD
        have hfmt3 : s3.format = sW.format := by
          rw [hf3]
          exact hfmt2
        have hC4 : CursorAt s2.format s3.offset d := hC3x
        rw [hfmt2] at hC4
        have hnd4 : ¬isDigitChar (s2.format.getD s3.offset.toNat nul) := hnd3x
        rw [hfmt2] at hnd4
        by_cases hE : PeekNext s3 = 'e' ∨ PeekNext s3 = 'E' ∨
            PeekNext s3 = 'd' ∨ PeekNext s3 = 'D'
        · rw [if_pos hE] at h
          have hlt3 : s3.offset < s3.formatLength := by
            by_contra hcon
            rw [PeekNext, if_neg hcon] at hE
            rcases hE with h' | h' | h' | h' <;> exact absurd h' (by decide)
          have hraw3 : sW.format.getD s3.offset.toNat nul = PeekNext s3 := by
            rw [PeekNext, if_pos hlt3, hfmt3]
          have hlt3n : s3.offset < (sW.format.length : Int) := by
            have h' := hlt3
            unfold IoState.formatLength at h'
            rw [hfmt3] at h'
            exact h'
          obtain ⟨hC5, hpend5⟩ := CursorAt_step_other sW.format s3.offset d hC4 hlt3n
            (by rw [hraw3]; rcases hE with h' | h' | h' | h' <;> rw [h'] <;> decide)
            (by rw [hraw3]; rcases hE with h' | h' | h' | h' <;> rw [h'] <;> decide)
            (by rw [hraw3]; rcases hE with h' | h' | h' | h' <;> rw [h'] <;> decide)
            (by rw [hraw3]; rcases hE with h' | h' | h' | h' <;> rw [h'] <;> decide)
            (by rw [hraw3]; rcases hE with h' | h' | h' | h' <;> rw [h'] <;> decide)
          cases hX : GetIntField { s3 with offset := s3.offset + 1 } nul with
          | error e =>
            rw [hX] at h
            exact Except.noConfusion h
          | ok z =>
            obtain ⟨expo, s4⟩ := z
            rw [hX] at h
            simp only [] at h
            have hCX : CursorAt ({ s3 with offset := s3.offset + 1 } : IoState).format
                ({ s3 with offset := s3.offset + 1 } : IoState).offset d := by
              have h' : CursorAt s3.format (s3.offset + 1) d := by
                rw [hfmt3]
                exact hC5
              exact h'
            obtain ⟨hf4, hm4, hC4x, hnd4x⟩ := GetIntField_scan d _ expo s4 hCX hX
            injection h with h
            injection h with hw h
            injection h with hmm h
            injection h with hdg h
            injection h with heo hs5
            subst hs5
            have hCfin : CursorAt s3.format s4.offset d := hC4x
            rw [hfmt3] at hCfin
            have hndfin : ¬isDigitChar (s3.format.getD s4.offset.toNat nul) := hnd4x
            rw [hfmt3] at hndfin
            exact ⟨by rw [hf4, hf3, hf2], hCfin, hndfin⟩
        · rw [if_neg hE] at h
          simp only [] at h
          injection h with h
          injection h with hw h
          injection h with hmm h
          injection h with hdg h
          injection h with heo hs5
          subst hs5
          exact ⟨by rw [hf3, hf2], hC4, hnd4⟩
    · rw [if_neg hdot] at h
      simp only [] at h
      injection h with h
      injection h with hw h
      injection h with hmm h
      injection h with hdg h
      injection h with heo hs5
      subst hs5
      exact ⟨hf2, hC2, hnd2⟩

/-- Re-establishing the parenthesis-shaped invariant at the state the
field parser leaves: same stack, cursor moved to a non-digit at the
stack-height depth. -/
theorem Inv_s5_paren (s0 s5 : IoState)
    (hmh0 : s0.maxHeight = maxNesting s0.format + 2)
    (hps : ParenStack s0.format s0.stack)
    (hdepth : (scanAt s0.format s0.offset.toNat).depth = (s0.stack.length : Int))
    (hfs5 : s5 = { s0 with offset := s5.offset })
    (hC5 : CursorAt s0.format s5.offset ((scanAt s0.format s0.offset.toNat).depth))
    (hnd5 : ¬ isDigitChar (s0.format.getD s5.offset.toNat nul)) :
    Inv s5 := by
  have hfmt5 : s5.format = s0.format := by rw [hfs5]
  have hstack5 : s5.stack = s0.stack := by rw [hfs5]
  have hmh5 : s5.maxHeight = s0.maxHeight := by rw [hfs5]
  refine ⟨by rw [hmh5, hfmt5, hmh0], Or.inl ⟨?_, ?_, ?_⟩⟩
  · rw [hfmt5, hstack5]
    exact hps
  · rw [hfmt5, hstack5]
    exact CursorAt_cast _ _ _ _ hC5 hdepth
  · rw [hfmt5]
    exact Or.inr hnd5

/-- The frame-adjustment endgame of `GetNext`: once the descriptor and its
numeric fields are consumed, pushing a frame for a repeated descriptor
and/or batching or popping the top frame preserves the walk invariant. -/
theorem GetNext_endgame (s0 s5 s6 : IoState) (rpt mr : Int)
    (hIt : Inv s0) (hDE : DataEditAt s0.format s0.offset) (hlen1 : 1 ≤ s0.stack.length)
    (hgt1 : 1 < rpt → ParenStack s0.format s0.stack ∧
      CursorAt s0.format s0.offset (s0.stack.length : Int))
    (hfs5 : s5 = { s0 with offset := s5.offset })
    (hC5 : CursorAt s0.format s5.offset ((scanAt s0.format s0.offset.toNat).depth))
    (hnd5 : ¬ isDigitChar (s0.format.getD s5.offset.toNat nul))
    (hs6 : s6 = if 1 < rpt then
      { s5 with stack := { start := s0.offset, remaining := rpt } :: s5.stack } else s5) :
    Inv (if 1 < s6.height then
        (if s6.format.getD (s6.stack.headD { start := 0, remaining := 0 }).start.toNat nul
            ≠ '(' then
          (if mr < (s6.stack.headD { start := 0, remaining := 0 }).remaining then
            (mr, { s6 with
              stack := { s6.stack.headD { start := 0, remaining := 0 } with
                  remaining := (s6.stack.headD { start := 0, remaining := 0 }).remaining
                    - mr } :: s6.stack.tail,
              offset := (s6.stack.headD { start := 0, remaining := 0 }).start })
          else ((s6.stack.headD { start := 0, remaining := 0 }).remaining,
            { s6 with stack := s6.stack.tail }))
        else (1, s6))
      else (1, s6)).2 := by
  obtain ⟨hmh0, hshape⟩ := hIt
  have hfmt5 : s5.format = s0.format := by rw [hfs5]
  have hstack5 : s5.stack = s0.stack := by rw [hfs5]
  have hmh5 : s5.maxHeight = s0.maxHeight := by rw [hfs5]
  obtain ⟨hAd, hZd, hHd⟩ := DataEditAt_letter s0.format s0.offset hDE
  have hrawne : s0.format.getD s0.offset.toNat nul ≠ '(' := by
    intro hcon
    rw [hcon] at hAd
    exact absurd hAd (by decide)
  have hrawne5 : s5.format.getD s0.offset.toNat nul ≠ '(' := by
    rw [hfmt5]
    exact hrawne
  by_cases hpush : 1 < rpt
  · obtain ⟨hps0, hCd0⟩ := hgt1 hpush
    have hdepth : (scanAt s0.format s0.offset.toNat).depth = (s0.stack.length : Int) :=
      hCd0.2.2.2
    subst hs6
    rw [if_pos hpush]
    have hh6 : 1 < ({ s5 with
        stack := { start := s0.offset, remaining := rpt } :: s5.stack } : IoState).height := by
      unfold IoState.height
      dsimp only
      rw [List.length_cons, hstack5]
      push_cast
      omega
    rw [if_pos hh6]
    simp only [List.headD_cons, List.tail_cons]
    rw [if_pos hrawne5]
    by_cases hbatch : mr < rpt
    · rw [if_pos hbatch]
      dsimp only
      refine ⟨?_, Or.inr ⟨{ start := s0.offset, remaining := rpt - mr }, s5.stack, rfl,
        ?_, ?_, ?_, rfl, ?_, ?_⟩⟩
      · show s5.maxHeight = maxNesting s5.format + 2
        rw [hmh5, hfmt5, hmh0]
      · show 1 ≤ s5.stack.length
        rw [hstack5]
        exact hlen1
      · show s5.format.getD s0.offset.toNat nul ≠ '('
        exact hrawne5
      · show ParenStack s5.format s5.stack
        rw [hfmt5, hstack5]
        exact hps0
      · show DataEditAt s5.format s0.offset
        rw [hfmt5]
        exact hDE
      · show CursorAt s5.format s0.offset (s5.stack.length : Int)
        rw [hfmt5, hstack5]
        exact hCd0
    · rw [if_neg hbatch]
      dsimp only
      exact Inv_s5_paren s0 s5 hmh0 hps0 hdepth hfs5 hC5 hnd5
  · subst hs6
    rw [if_neg hpush]
    rcases hshape with ⟨hps, hCp, hpok⟩ |
      ⟨rf, rest, hstk, hrest1, hnp, hpsr, hoff, hDEr, hCr⟩
    · have hdepth : (scanAt s0.format s0.offset.toNat).depth = (s0.stack.length : Int) :=
        hCp.2.2.2
      by_cases hh : 1 < s5.height
      · rw [if_pos hh]
        cases hstk0 : s0.stack with
        | nil =>
          exfalso
          have h0 : s5.stack = [] := by rw [hstack5, hstk0]
          unfold IoState.height at hh
          rw [h0] at hh
          exact absurd hh (by decide)
        | cons fr1 rest1 =>
          have hstk5c : s5.stack = fr1 :: rest1 := by rw [hstack5, hstk0]
          have hfr1 : s0.format.getD fr1.start.toNat nul = '(' := by
            rw [hstk0] at hps
            exact hps.1.2.2.1
          have hcond : ¬ (s5.format.getD
              (s5.stack.headD { start := 0, remaining := 0 }).start.toNat nul ≠ '(') := by
            rw [hstk5c]
            simp only [List.headD_cons]
            rw [hfmt5, hfr1]
            exact fun hcc => hcc rfl
          rw [if_neg hcond]
          dsimp only
          exact Inv_s5_paren s0 s5 hmh0 hps hdepth hfs5 hC5 hnd5
      · rw [if_neg hh]
        dsimp only
        exact Inv_s5_paren s0 s5 hmh0 hps hdepth hfs5 hC5 hnd5
    · have hdepth : (scanAt s0.format s0.offset.toNat).depth = (rest.length : Int) := by
        rw [hoff]
        exact hCr.2.2.2
      have hstk5c : s5.stack = rf :: rest := by rw [hstack5, hstk]
      have hh : 1 < s5.height := by
        unfold IoState.height
        rw [hstk5c, List.length_cons]
        push_cast
        omega
      rw [if_pos hh]
      have hcond : s5.format.getD
          (s5.stack.headD { start := 0, remaining := 0 }).start.toNat nul ≠ '(' := by
        rw [hstk5c]
        simp only [List.headD_cons]
        rw [hfmt5]
        exact hnp
      rw [if_pos hcond]
      rw [hstk5c]
      simp only [List.headD_cons, List.tail_cons]
      by_cases hbatch : mr < rf.remaining
      · rw [if_pos hbatch]
        dsimp only
        refine ⟨?_, Or.inr ⟨{ rf with remaining := rf.remaining - mr }, rest, rfl,
          hrest1, ?_, ?_, rfl, ?_, ?_⟩⟩
        · show s5.maxHeight = maxNesting s5.format + 2
          rw [hmh5, hfmt5, hmh0]
        · show s5.format.getD rf.start.toNat nul ≠ '('
          rw [hfmt5]
          exact hnp
        · show ParenStack s5.format rest
          rw [hfmt5]
          exact hpsr
        · show DataEditAt s5.format rf.start
          rw [hfmt5]
          exact hDEr
        · show CursorAt s5.format rf.start (rest.length : Int)
          rw [hfmt5]
          exact hCr
      · rw [if_neg hbatch]
        dsimp only
        refine ⟨?_, Or.inl ⟨?_, ?_, ?_⟩⟩
        · show s5.maxHeight = maxNesting s5.format + 2
          rw [hmh5, hfmt5, hmh0]
        · show ParenStack s5.format rest
          rw [hfmt5]
          exact hpsr
        · show CursorAt s5.format s5.offset (rest.length : Int)
          rw [hfmt5]
          exact CursorAt_cast _ _ _ _ hC5 hdepth
        · show PendingOk s5.format s5.offset
          rw [hfmt5]
          exact Or.inr hnd5

/-- `FormatControl::GetNext` preserves the walk invariant. -/
theorem GetNext_inv (fuel : Nat) (s : IoState) (mr : Int) (edit : DataEdit) (s' : IoState)
    (hI : Inv s) (h : GetNext fuel s mr = some (Except.ok (edit, s'))) : Inv s' := by
  rw [GetNext] at h
  cases hcue : CueUpNextDataEdit fuel s false (-1) with
  | none =>
    rw [hcue] at h
    simp only [] at h
    exact Option.noConfusion h
  | some res =>
    cases res with
    | error e =>
      rw [hcue] at h
      simp only [] at h
      injection h with h
      exact Except.noConfusion h
    | ok pr =>
      obtain ⟨rpt, s0⟩ := pr
      rw [hcue] at h
      simp only [] at h
      have hpost := CueUpNextDataEdit_inv fuel s false (-1) hI
      rw [hcue] at hpost
      obtain ⟨hwb, hsne, hinv3, hgt1⟩ := hpost
      obtain ⟨hIt, hDE, hlen1⟩ := hinv3 (hsne rfl)
      have hltF : s0.offset < s0.formatLength := by
        unfold IoState.formatLength
        exact hDE.2.1
      rw [GetNextChar, if_pos hltF] at h
      simp only [] at h
      obtain ⟨hAd, hZd, hHd⟩ := DataEditAt_letter s0.format s0.offset hDE
      obtain ⟨hcapD, hne1, hne2, hne3, hne4, hne5⟩ :=
        raw_letter_facts (s0.format.getD s0.offset.toNat nul) _ (Or.inl rfl) hAd hZd hHd
      have hC0 : CursorAt s0.format s0.offset ((scanAt s0.format s0.offset.toNat).depth) := by
        rcases hIt.2 with ⟨_, hCp, _⟩ | ⟨rf, rest, _, _, _, _, hoff0, _, hCr⟩
        · exact ⟨hCp.1, hCp.2.1, hCp.2.2.1, rfl⟩
        · rw [hoff0]
          exact ⟨hCr.1, hCr.2.1, hCr.2.2.1, rfl⟩
      obtain ⟨hC1, hpend1⟩ := CursorAt_step_other s0.format s0.offset _ hC0 hDE.2.1
        hne1 hne2 hne3 hne4 hne5
      by_cases hEd : Capitalize (s0.format.getD s0.offset.toNat nul) = 'E'
      · rw [if_pos hEd] at h
        by_cases hvar : 'A' ≤ Capitalize (PeekNext { s0 with offset := s0.offset + 1 }) ∧
            Capitalize (PeekNext { s0 with offset := s0.offset + 1 }) ≤ 'Z'
        · rw [if_pos hvar] at h
          dsimp only at h
          have hlt1 : s0.offset + 1 < s0.formatLength := by
            by_contra hcon
            have hcon' : ¬ (({ s0 with offset := s0.offset + 1 } : IoState).offset <
                ({ s0 with offset := s0.offset + 1 } : IoState).formatLength) := by
              unfold IoState.formatLength
              unfold IoState.formatLength at hcon
              dsimp only
              omega
            rw [PeekNext, if_neg hcon'] at hvar
            exact absurd hvar.1 (by decide)
          have hlt1' : ({ s0 with offset := s0.offset + 1 } : IoState).offset <
              ({ s0 with offset := s0.offset + 1 } : IoState).formatLength := by
            unfold IoState.formatLength
            unfold IoState.formatLength at hlt1
            dsimp only
            omega
          rw [PeekNext, if_pos hlt1'] at hvar
          have hvar' : 'A' ≤ Capitalize (s0.format.getD (s0.offset + 1).toNat nul) ∧
              Capitalize (s0.format.getD (s0.offset + 1).toNat nul) ≤ 'Z' := hvar
          obtain ⟨hq1, hq2, hq3, hq4⟩ := raw_letter_facts_weak
            (s0.format.getD (s0.offset + 1).toNat nul) _ (Or.inl rfl) hvar'.1 hvar'.2
          obtain ⟨hC2, hpend2⟩ := CursorAt_step_nonspecial s0.format (s0.offset + 1) _ hC1
            (by unfold IoState.formatLength at hlt1; exact hlt1) hpend1 hq1 hq2 hq3 hq4
          cases hPF : GetNextParseFields { s0 with offset := s0.offset + 1 + 1 } with
          | error e =>
            rw [hPF] at h
            simp only [] at h
            injection h with h
            exact Except.noConfusion h
          | ok t =>
            obtain ⟨width, modes, dgo, eoo, s5⟩ := t
            rw [hPF] at h
            simp only [] at h
            have hCV : CursorAt ({ s0 with offset := s0.offset + 1 + 1 } : IoState).format
                ({ s0 with offset := s0.offset + 1 + 1 } : IoState).offset
                ((scanAt s0.format s0.offset.toNat).depth) := hC2
            obtain ⟨hf5, hC5x, hnd5x⟩ :=
              GetNextParseFields_scan _ _ width modes dgo eoo s5 hCV hPF
            have hC5 : CursorAt s0.format s5.offset
                ((scanAt s0.format s0.offset.toNat).depth) := hC5x
            have hnd5 : ¬ isDigitChar (s0.format.getD s5.offset.toNat nul) := hnd5x
            have hfs5 : s5 = { s0 with offset := s5.offset } := by rw [hf5]
            injection h with h
            injection h with h
            injection h with hrec hst
            subst hst
            exact GetNext_endgame s0 s5 _ rpt mr hIt hDE hlen1 hgt1 hfs5 hC5 hnd5 rfl
        · rw [if_neg hvar] at h
          dsimp only at h
          cases hPF : GetNextParseFields { s0 with offset := s0.offset + 1 } with
          | error e =>
            rw [hPF] at h
            simp only [] at h
            injection h with h
            exact Except.noConfusion h
          | ok t =>
            obtain ⟨width, modes, dgo, eoo, s5⟩ := t
            rw [hPF] at h
            simp only [] at h
            have hCV : CursorAt ({ s0 with offset := s0.offset + 1 } : IoState).format
                ({ s0 with offset := s0.offset + 1 } : IoState).offset
                ((scanAt s0.format s0.offset.toNat).depth) := hC1
            obtain ⟨hf5, hC5x, hnd5x⟩ :=
              GetNextParseFields_scan _ _ width modes dgo eoo s5 hCV hPF
            have hC5 : CursorAt s0.format s5.offset
                ((scanAt s0.format s0.offset.toNat).depth) := hC5x
            have hnd5 : ¬ isDigitChar (s0.format.getD s5.offset.toNat nul) := hnd5x
            have hfs5 : s5 = { s0 with offset := s5.offset } := by rw [hf5]
            injection h with h
            injection h with h
            injection h with hrec hst
            subst hst
            exact GetNext_endgame s0 s5 _ rpt mr hIt hDE hlen1 hgt1 hfs5 hC5 hnd5 rfl
      · rw [if_neg hEd] at h
        dsimp only at h
        cases hPF : GetNextParseFields { s0 with offset := s0.offset + 1 } with
        | error e =>
          rw [hPF] at h
          simp only [] at h
          injection h with h
          exact Except.noConfusion h
        | ok t =>
          obtain ⟨width, modes, dgo, eoo, s5⟩ := t
          rw [hPF] at h
          simp only [] at h
          have hCV : CursorAt ({ s0 with offset := s0.offset + 1 } : IoState).format
              ({ s0 with offset := s0.offset + 1 } : IoState).offset
              ((scanAt s0.format s0.offset.toNat).depth) := hC1
          obtain ⟨hf5, hC5x, hnd5x⟩ :=
            GetNextParseFields_scan _ _ width modes dgo eoo s5 hCV hPF
          have hC5 : CursorAt s0.format s5.offset
              ((scanAt s0.format s0.offset.toNat).depth) := hC5x
          have hnd5 : ¬ isDigitChar (s0.format.getD s5.offset.toNat nul) := hnd5x
          have hfs5 : s5 = { s0 with offset := s5.offset } := by rw [hf5]
          injection h with h
          injection h with h
          injection h with hrec hst
          subst hst
          exact GetNext_endgame s0 s5 _ rpt mr hIt hDE hlen1 hgt1 hfs5 hC5 hnd5 rfl

/-- `BeginInternalFormattedOutput` establishes the walk invariant: cursor
at 0, empty stack, `maxHeight = maxNesting + 2`. -/
theorem Begin_inv (len : Nat) (format : List Char) (s0 : IoState)
    (h : BeginInternalFormattedOutput len format = Except.ok s0) : Inv s0 := by
  rw [BeginInternalFormattedOutput] at h
  by_cases hmh : 127 < maxNesting format + 2
  · rw [if_pos hmh] at h
    exact Except.noConfusion h
  · rw [if_neg hmh] at h
    injection h with h
    subst h
    refine ⟨rfl, Or.inl ⟨trivial, ⟨le_refl 0, ?_, rfl, rfl⟩, Or.inl rfl⟩⟩
    show (0 : Int) ≤ (format.length : Int)
    omega

/-- The walk invariant pins the cursor inside `[0, formatLength]` and
keeps the stack height strictly below `maxHeight`. -/
theorem Inv_bounds (s : IoState) (hI : Inv s) :
    0 ≤ s.offset ∧ s.offset ≤ s.formatLength ∧ s.height + 1 ≤ s.maxHeight := by
  obtain ⟨h1, h2, h3⟩ := Inv_WalkBounds s hI
  exact ⟨h1, h2, by omega⟩

/-- The integer conversion only writes into the buffer: the walk state
(format, offset, stack, maxHeight) survives unchanged. -/
theorem OutputInteger64Edit_walkOf (n : Int) (edit : DataEdit) (s : IoState)
    (b : Bool) (s₁ : IoState)
    (h : OutputInteger64Edit n edit s = Except.ok (b, s₁)) : walkOf s₁ = walkOf s := by
  rw [OutputInteger64Edit] at h
  cases hdl : digitList edit.descriptor (IntEditUn n) with
  | none =>
    rw [hdl] at h
    exact Except.noConfusion h
  | some dl =>
    rw [hdl] at h
    simp only [] at h
    split_ifs at h
    all_goals
      injection h with h
    all_goals
      first
      | (injection h with hb hs
         subst hs)
      | (have hs := congrArg Prod.snd h
         dsimp only at hs
         rw [← hs])
    all_goals
      first
      | rfl
      | simp only [Emit_walkOf, EmitRepeated_walkOf]

/-- `IONAME(OutputInteger64)` preserves the walk invariant. -/
theorem OutputInteger64_inv (fuel : Nat) (n : Int) (s : IoState) (b : Bool) (s' : IoState)
    (hI : Inv s) (h : OutputInteger64 fuel n s = some (Except.ok (b, s'))) : Inv s' := by
  rw [OutputInteger64] at h
  cases hg : GetNext fuel s 1 with
  | none =>
    rw [hg] at h
    simp only [] at h
    exact Option.noConfusion h
  | some r =>
    cases r with
    | error e =>
      rw [hg] at h
      simp only [] at h
      injection h with h
      exact Except.noConfusion h
    | ok p =>
      obtain ⟨edit, s1⟩ := p
      rw [hg] at h
      simp only [] at h
      injection h with h
      exact Inv_walkOf s1 s' (OutputInteger64Edit_walkOf n edit s1 b s' h)
        (GetNext_inv fuel s 1 edit s1 hI hg)

/-- The stopping walk run by `EndIoStatement` lands in bounds. -/
theorem FinishOutput_bounds (fuel : Nat) (s : IoState) (s' : IoState)
    (hI : Inv s) (h : FinishOutput fuel s = some (Except.ok s')) : WalkBounds s' := by
  rw [FinishOutput] at h
  cases hcue : CueUpNextDataEdit fuel s true (-1) with
  | none =>
    rw [hcue] at h
    simp only [] at h
    exact Option.noConfusion h
  | some r =>
    cases r with
    | error e =>
      rw [hcue] at h
      simp only [] at h
      injection h with h
      exact Except.noConfusion h
    | ok p =>
      obtain ⟨rpt, t⟩ := p
      rw [hcue] at h
      simp only [] at h
      injection h with h
      injection h with h
      subst h
      have hpost := CueUpNextDataEdit_inv fuel s true (-1) hI
      rw [hcue] at hpost
      exact hpost.1

/-- `EndIoStatement` from an invariant state returns a state in bounds. -/
theorem EndIoStatement_bounds (fuel : Nat) (s : IoState) (stat : Int) (s' : IoState)
    (hI : Inv s) (h : EndIoStatement fuel s = some (Except.ok (stat, s'))) :
    WalkBounds s' := by
  rw [EndIoStatement] at h
  cases hf : FinishOutput fuel s with
  | none =>
    rw [hf] at h
    simp only [] at h
    exact Option.noConfusion h
  | some r =>
    cases r with
    | error e =>
      rw [hf] at h
      simp only [] at h
      injection h with h
      exact Except.noConfusion h
    | ok s1 =>
      rw [hf] at h
      simp only [] at h
      injection h with h
      injection h with h
      injection h with hstat hs
      subst hs
      exact FinishOutput_bounds fuel s s1 hI hf

/-- C6: For every FORMAT string (in particular every one the validator
accepts), the `GetNext`-driven walk keeps the cursor offset within
`[0, formatLength]` and the iteration-stack height within `maxHeight`:
the constructed statement state satisfies the walk invariant, the
invariant bounds the cursor and keeps the height strictly below
`maxHeight` (so the frame pushed by `GetNext` for a repeated
non-parenthesized descriptor also stays within the bound), every
`CueUpNextDataEdit` step from an invariant state satisfies the
postcondition `CueUpPost` (in bounds, and the stack-overflow diagnostic
guarding the parenthesized push is never produced), `GetNext` and
`OutputInteger64` preserve the invariant, and `EndIoStatement` drains the
trailer to a state still in bounds. -/
theorem C6_walk_offset_and_height_bounded :
    (∀ (len : Nat) (format : List Char) (s0 : IoState),
        BeginInternalFormattedOutput len format = Except.ok s0 → Inv s0) ∧
    (∀ s : IoState, Inv s →
        0 ≤ s.offset ∧ s.offset ≤ s.formatLength ∧ s.height + 1 ≤ s.maxHeight) ∧
    (∀ (fuel : Nat) (s : IoState) (stop : Bool) (ulc : Int),
        Inv s → CueUpPost stop (CueUpNextDataEdit fuel s stop ulc)) ∧
    (∀ (fuel : Nat) (s : IoState) (mr : Int) (edit : DataEdit) (s' : IoState),
        Inv s → GetNext fuel s mr = some (Except.ok (edit, s')) → Inv s') ∧
    (∀ (fuel : Nat) (n : Int) (s : IoState) (b : Bool) (s' : IoState),
        Inv s → OutputInteger64 fuel n s = some (Except.ok (b, s')) → Inv s') ∧
    (∀ (fuel : Nat) (s : IoState) (stat : Int) (s' : IoState),
        Inv s → EndIoStatement fuel s = some (Except.ok (stat, s')) →
          0 ≤ s'.offset ∧ s'.offset ≤ s'.formatLength ∧ s'.height ≤ s'.maxHeight - 1) :=
  ⟨fun len format s0 h => Begin_inv len format s0 h,
   fun s hI => Inv_bounds s hI,
   fun fuel s stop ulc hI => CueUpNextDataEdit_inv fuel s stop ulc hI,
   fun fuel s mr edit s' hI h => GetNext_inv fuel s mr edit s' hI h,
   fun fuel n s b s' hI h => OutputInteger64_inv fuel n s b s' hI h,
   fun fuel s stat s' hI h => EndIoStatement_bounds fuel s stat s' hI h⟩

end F18
